import Mathlib

/-!
Verification of the single-domain crawler (src/Crawler.py) against its
natural-language specification.

The development shallowly embeds the crawler: Python strings are `List Char`,
the BeautifulSoup document is a mutual `Node`/`Forest` tree, the mutable
globals of the script (`visited_urls`, `pages_crawled`, `crawl_data`,
`last_save_count`, the frontier deque and the list of snapshots written by
`save_data`) form a `CrawlState` record, and one iteration of the `while
queue:` loop of `crawl` is the function `crawlStep`, parametrised by a fetch
oracle standing for the network.  Functions of the Python standard library
that the script calls (`urllib.parse.urlparse`, `urljoin`, `str.lower`,
`str.strip`, `str.rstrip`) are modelled by definitions that follow the
documented CPython behaviour on the ASCII inputs the crawler handles.
-/

namespace Crawler

/-- Python `str.lower` restricted to ASCII, which is the alphabet of every
URL and extension string the crawler compares.  Maps the letters `A`..`Z`
(code points 65-90) to `a`..`z` and leaves every other character
unchanged. -/
def pyLower (c : Char) : Char :=
  if 65 ≤ c.toNat ∧ c.toNat ≤ 90 then Char.ofNat (c.toNat + 32) else c

/-- Python `str.lower` on a whole string. -/
def pyLowerStr (s : List Char) : List Char := s.map pyLower

/-- Python `url.split(sep)[0]`: the longest prefix not containing `sep`. -/
def takeUntil (sep : Char) (s : List Char) : List Char :=
  s.takeWhile (fun c => c ≠ sep)

/-- Splits a list at the first occurrence of `sep`, returning the parts
before and after it, or `none` if `sep` does not occur. -/
def splitAtFirst (sep : Char) : List Char → Option (List Char × List Char)
  | [] => none
  | c :: t =>
    if c = sep then some ([], t)
    else match splitAtFirst sep t with
      | none => none
      | some (a, b) => some (c :: a, b)

/-- Python `needle in hay` on strings: substring test. -/
def containsSub (needle : List Char) : List Char → Bool
  | [] => needle.isEmpty
  | c :: t => needle.isPrefixOf (c :: t) || containsSub needle t

/-- Python `s.endswith(e)`. -/
def pyEndsWith (s e : List Char) : Bool := e.isSuffixOf s

/-- Python `s.rstrip('/')`: removes every trailing `'/'`. -/
def rstripSlash (s : List Char) : List Char :=
  (s.reverse.dropWhile (fun c => c = '/')).reverse

/-- Python `s.strip()` for the ASCII whitespace relevant to `href` values. -/
def stripWs (s : List Char) : List Char :=
  ((s.dropWhile Char.isWhitespace).reverse.dropWhile Char.isWhitespace).reverse

/-- Python `str.strip()` on a `String`, via the character-list model
(`String.trim` itself is defined by byte-position recursion that the kernel
cannot evaluate). -/
def pyStrip (s : String) : String := ⟨stripWs s.data⟩

/-- Characters CPython's `urllib.parse` accepts inside a URL scheme. -/
def schemeChar (c : Char) : Bool :=
  c.isAlpha || c.isDigit || c = '+' || c = '-' || c = '.'

/-- Result of `urllib.parse.urlparse`: the five components the crawler uses
(`params` never occurs in its URLs and is not modelled). -/
structure PUrl where
  scheme : List Char
  netloc : List Char
  path : List Char
  query : List Char
  fragment : List Char
deriving DecidableEq

/-- Modelled from CPython `urllib.parse.urlsplit`: detaches `scheme:` when
the text before the first `':'` is a nonempty run of scheme characters
starting with a letter, lowercasing the scheme. -/
def schemeSplit (u : List Char) : Option (List Char × List Char) :=
  match splitAtFirst ':' u with
  | none => none
  | some (pre, post) =>
    if pre ≠ [] ∧ (pre.headD ' ').isAlpha ∧ pre.all schemeChar then
      some (pre, post)
    else none

/-- Modelled from CPython `urllib.parse.urlsplit`: when the remainder starts
with `//`, the netloc runs up to the first of `/`, `?` or `#`. -/
def netlocDelim (c : Char) : Bool := c = '/' || c = '?' || c = '#'

/-- Total version of `schemeSplit`: on failure the raw scheme is empty and
the whole input remains. -/
def schemeSplitD (u : List Char) : List Char × List Char :=
  match schemeSplit u with
  | some (pre, post) => (pre, post)
  | none => ([], u)

/-- Modelled from CPython `urllib.parse.urlsplit`: when the remainder starts
with `//`, the netloc runs up to the first of `/`, `?` or `#`. -/
def netlocSplit (rest : List Char) : List Char × List Char :=
  if ['/', '/'].isPrefixOf rest then
    ((rest.drop 2).takeWhile (fun c => ¬ netlocDelim c),
     (rest.drop 2).dropWhile (fun c => ¬ netlocDelim c))
  else ([], rest)

/-- Python `l.split(sep, 1)` as a pair: the parts before and after the first
occurrence of `sep`, or `(l, [])` when `sep` does not occur. -/
def splitAtFirstD (sep : Char) (l : List Char) : List Char × List Char :=
  match splitAtFirst sep l with
  | some (a, b) => (a, b)
  | none => (l, [])

/-- Modelled from CPython `urllib.parse.urlparse` (without the unused
`params` component): scheme, then netloc after `//`, then the fragment is
split off at the first `#`, then the query at the first `?`. -/
def urlparseModel (u : List Char) : PUrl :=
  let sr := schemeSplitD u
  let nl := netlocSplit sr.2
  let fh := splitAtFirstD '#' nl.2
  let pq := splitAtFirstD '?' fh.1
  ⟨pyLowerStr sr.1, nl.1, pq.1, pq.2, fh.2⟩

/-- CPython `urllib.parse.uses_relative`: the schemes that allow relative
resolution in `urljoin` (the empty scheme stands for scheme-less URLs). -/
def uses_relative : List (List Char) :=
  [[], "ftp".data, "http".data, "gopher".data, "nntp".data, "imap".data,
   "wais".data, "file".data, "https".data, "shttp".data, "mms".data,
   "prospero".data, "rtsp".data, "rtsps".data, "rtspu".data, "sftp".data,
   "svn".data, "svn+ssh".data, "ws".data, "wss".data]

/-- CPython `urllib.parse.uses_netloc`: the schemes whose URLs carry a
network location. -/
def uses_netloc : List (List Char) :=
  [[], "ftp".data, "http".data, "gopher".data, "nntp".data, "telnet".data,
   "imap".data, "wais".data, "file".data, "mms".data, "https".data,
   "shttp".data, "snews".data, "prospero".data, "rtsp".data, "rtsps".data,
   "rtspu".data, "rsync".data, "svn".data, "svn+ssh".data, "sftp".data,
   "nfs".data, "git".data, "git+ssh".data, "ws".data, "wss".data]

/-- Modelled from CPython `urllib.parse.urlunsplit`, which `geturl` calls:
reassembles `scheme://netloc/path?query#fragment`, omitting the separators
of empty components.  A `//netloc` part is emitted when the netloc is
nonempty, or when the scheme is a `uses_netloc` scheme and the path does not
already start with `//`; in that case a nonempty path not starting with
`'/'` gets one prepended (`if url and url[:1] != '/': url = '/' + url`). -/
def urlunsplitModel (p : PUrl) : List Char :=
  let url0 :=
    if p.netloc ≠ [] ∨
        (p.scheme ≠ [] ∧ uses_netloc.contains p.scheme ∧
          ¬ ['/', '/'].isPrefixOf p.path) then
      '/' :: '/' :: (p.netloc ++
        (if p.path ≠ [] ∧ ¬ ['/'].isPrefixOf p.path then '/' :: p.path
         else p.path))
    else p.path
  let withScheme := if p.scheme ≠ [] then p.scheme ++ ':' :: url0 else url0
  let withQuery := if p.query ≠ [] then withScheme ++ '?' :: p.query else withScheme
  if p.fragment ≠ [] then withQuery ++ '#' :: p.fragment else withQuery

/-- Line 13 of the source: the seed URL. -/
def START_URL : List Char := "https://www.workstream.us/".data

/-- Line 14 of the source: `ALLOWED_DOMAIN = urlparse(START_URL).netloc`. -/
def ALLOWED_DOMAIN : List Char := (urlparseModel START_URL).netloc

/-- Line 25 of the source: the checkpoint interval. -/
def SAVE_EVERY_N_PAGES : Nat := 200

/-- Lines 82-86 of the source: the denylist of non-document extensions. -/
def excluded_extensions : List (List Char) :=
  [".pdf".data, ".jpg".data, ".jpeg".data, ".png".data, ".gif".data,
   ".zip".data, ".docx".data, ".xlsx".data, ".pptx".data, ".mp4".data,
   ".mov".data, ".avi".data, ".svg".data, ".css".data, ".js".data,
   ".xml".data, ".txt".data, ".ico".data, ".webp".data, ".woff".data,
   ".woff2".data, ".ttf".data, ".eot".data, ".map".data]

/-- Lines 73-93 of the source, `is_valid_url`: accepts a URL iff its scheme
is `http` or `https`, its netloc is exactly `ALLOWED_DOMAIN`, it contains no
`'#'`, and the lowercased URL truncated at the first `'?'` (and `'#'`) does
not end with one of the excluded extensions.  The `except ValueError` branch
cannot fire in the model because the modelled parse is total. -/
def is_valid_url (url : List Char) : Bool :=
  let parsed := urlparseModel url
  if ¬ ((parsed.scheme = "http".data ∨ parsed.scheme = "https".data) ∧
        parsed.netloc = ALLOWED_DOMAIN ∧ ¬ '#' ∈ url) then
    false
  else
    let lower_url := pyLowerStr url
    ¬ excluded_extensions.any (fun ext =>
        pyEndsWith (takeUntil '#' (takeUntil '?' lower_url)) ext)

/-- Lines 137-140 of the source: the cleanup applied to a URL as it is
dequeued — when the parsed path is nonempty and not `"/"` and the URL string
ends with `'/'`, all trailing slashes are removed (`rstrip('/')`). -/
def dequeueNormalize (u : List Char) : List Char :=
  let p := urlparseModel u
  if p.path ≠ [] ∧ p.path ≠ "/".data ∧ pyEndsWith u "/".data then
    rstripSlash u
  else u

/-- Helper for `splitSlash`: accumulates the current segment reversed. -/
def splitSlashAux (acc : List Char) : List Char → List (List Char)
  | [] => [acc.reverse]
  | c :: t => if c = '/' then acc.reverse :: splitSlashAux [] t else splitSlashAux (c :: acc) t

/-- Python `path.split('/')` on a list of characters. -/
def splitSlash (s : List Char) : List (List Char) := splitSlashAux [] s

/-- Python `'/'.join(parts)`. -/
def joinSlash (parts : List (List Char)) : List Char :=
  List.intercalate "/".data parts

/-- Modelled from CPython `urljoin`: `segments[1:-1] = filter(None,
segments[1:-1])` — drops empty segments except the first and last. -/
def filterMiddle (l : List (List Char)) : List (List Char) :=
  match l with
  | [] => []
  | [a] => [a]
  | a :: b :: rest =>
    let tail := b :: rest
    a :: (tail.dropLast.filter (fun seg => seg ≠ []) ++ [tail.getLastD []])

/-- Modelled from CPython `urljoin`: resolution of `.` and `..` segments. -/
def resolveSegs (segs : List (List Char)) : List (List Char) :=
  let resolved := segs.foldl (fun acc seg =>
    if seg = "..".data then acc.dropLast
    else if seg = ".".data then acc
    else acc ++ [seg]) []
  if segs.getLastD [] = "..".data ∨ segs.getLastD [] = ".".data then
    resolved ++ [[]]
  else resolved

/-- Modelled from CPython `urllib.parse.urljoin` (3.x algorithm, without the
unused `params` component): resolves `url` against `base`.  A scheme outside
`uses_relative` is returned unresolved; a `uses_netloc` scheme bringing its
own netloc is re-rendered as-is; otherwise the netloc is inherited from the
base for `uses_netloc` schemes, and when the `'..'` segments exhaust the
joined path the empty join falls back to `"/"` (the
`'/'.join(resolved_path) or '/'` of the source). -/
def urljoinModel (base url : List Char) : List Char :=
  if base = [] then url
  else if url = [] then base
  else
    let b := urlparseModel base
    let r0 := urlparseModel url
    let r := if r0.scheme = [] then { r0 with scheme := b.scheme } else r0
    if r.scheme ≠ b.scheme ∨ ¬ uses_relative.contains r.scheme then url
    else if uses_netloc.contains r.scheme ∧ r.netloc ≠ [] then
      urlunsplitModel r
    else
      let netloc := if uses_netloc.contains r.scheme then b.netloc else r.netloc
      if r.path = [] then
        urlunsplitModel ⟨r.scheme, netloc, b.path,
          (if r.query = [] then b.query else r.query), r.fragment⟩
      else
        let baseParts := (splitSlash b.path).dropLast
        let segments :=
          if ['/'].isPrefixOf r.path then splitSlash r.path
          else filterMiddle (baseParts ++ splitSlash r.path)
        let joined := joinSlash (resolveSegs segments)
        urlunsplitModel ⟨r.scheme, netloc,
          (if joined = [] then "/".data else joined), r.query, r.fragment⟩

/-- CPython `urlsplit` raises `ValueError("Invalid IPv6 URL")` when the
parsed netloc contains `'['` without `']'` or `']'` without `'['` — e.g. on
the href `http://[`.  (Validation of the contents of a well-bracketed host
is a further `ValueError` source not modelled here.) -/
def urlsplitRaises (u : List Char) : Bool :=
  let nl := (netlocSplit (schemeSplitD u).2).1
  (nl.contains '[' && !nl.contains ']') || (nl.contains ']' && !nl.contains '[')

/-- `urljoin` with its `ValueError` path: after the two emptiness
short-circuits it parses both arguments with `urlsplit`, so a malformed
bracketed netloc in either raises; inside the crawl loop (line 258 of the
source) this exception aborts the link-harvest of the page. -/
def urljoinModelE (base url : List Char) : Except (List Char) (List Char) :=
  if base = [] then .ok url
  else if url = [] then .ok base
  else if urlsplitRaises base || urlsplitRaises url then
    .error "ValueError: Invalid IPv6 URL".data
  else .ok (urljoinModel base url)

/-- Lines 258-262 of the source: a harvested `href` is stripped, resolved
against the current page URL, the fragment is dropped by
`_replace(fragment="").geturl()`, and when the parsed path is nonempty and
not `"/"` and the resulting string ends with `'/'`, every trailing slash is
removed by `rstrip('/')`. -/
def normalizeHarvestedLink (currentUrl href : List Char) : List Char :=
  let absolute := urljoinModel currentUrl (stripWs href)
  let parsed_new_url := urlparseModel absolute
  let defragged := urlunsplitModel { parsed_new_url with fragment := [] }
  if parsed_new_url.path ≠ [] ∧ parsed_new_url.path ≠ "/".data ∧
      pyEndsWith defragged "/".data then
    rstripSlash defragged
  else defragged

example : urlparseModel "https://www.workstream.us/a/b?q=1#frag".data =
    ⟨"https".data, "www.workstream.us".data, "/a/b".data, "q=1".data, "frag".data⟩ := by
  decide

example : ALLOWED_DOMAIN = "www.workstream.us".data := by decide

example : is_valid_url "https://www.workstream.us/pricing".data = true := by decide
example : is_valid_url "https://sub.workstream.us/pricing".data = false := by decide
example : is_valid_url "ftp://www.workstream.us/x".data = false := by decide
example : is_valid_url "https://www.workstream.us/report.pdf".data = false := by decide
example : is_valid_url "https://www.workstream.us/a#b".data = false := by decide
example : dequeueNormalize "https://www.workstream.us/a//".data =
    "https://www.workstream.us/a".data := by decide
example : dequeueNormalize "https://www.workstream.us/".data =
    "https://www.workstream.us/".data := by decide

example : urljoinModel "https://www.workstream.us/a/b".data "/c".data =
    "https://www.workstream.us/c".data := by decide
example : urljoinModel "https://www.workstream.us/a/b".data "c".data =
    "https://www.workstream.us/a/c".data := by decide
example : urljoinModel "https://www.workstream.us/a/b".data "../x".data =
    "https://www.workstream.us/x".data := by decide
example : urljoinModel "https://www.workstream.us/a/b".data "?q=1".data =
    "https://www.workstream.us/a/b?q=1".data := by decide
example : normalizeHarvestedLink "https://www.workstream.us/".data "/about/".data =
    "https://www.workstream.us/about".data := by decide
example : normalizeHarvestedLink "https://www.workstream.us/".data "/about#team".data =
    "https://www.workstream.us/about".data := by decide

mutual
/-- Node of the parsed document: a text node, or an element with its tag,
`id` attribute, class list, remaining attributes and children.  This is the
"parse(bytes) → queryable document" collaborator of the spec, with exactly
the observations the crawler makes (tag, id, classes, attributes, text). -/
inductive Node where
  | text (s : String)
  | elem (tag : String) (idAttr : Option String) (classes : List String)
      (attrs : List (String × String)) (children : Forest)

/-- Sequence of sibling nodes. -/
inductive Forest where
  | nil
  | cons (n : Node) (f : Forest)
end

mutual
/-- All element nodes of a node's subtree, in document (pre-)order. -/
def elemsN : Node → List Node
  | .text _ => []
  | .elem t i cls attrs ch => .elem t i cls attrs ch :: elemsF ch

/-- All element nodes of a forest, in document (pre-)order. -/
def elemsF : Forest → List Node
  | .nil => []
  | .cons n f => elemsN n ++ elemsF f
end

mutual
/-- BeautifulSoup `find`: the first node of the subtree, in document order,
satisfying the predicate. -/
def findFirstN (p : Node → Bool) : Node → Option Node
  | .text s => if p (.text s) then some (.text s) else none
  | .elem t i cls attrs ch =>
    if p (.elem t i cls attrs ch) then some (.elem t i cls attrs ch)
    else findFirstF p ch

/-- BeautifulSoup `find` over a whole document. -/
def findFirstF (p : Node → Bool) : Forest → Option Node
  | .nil => none
  | .cons n f =>
    match findFirstN p n with
    | some r => some r
    | none => findFirstF p f
end

mutual
/-- The strings of all text nodes of a subtree, in document order. -/
def textsN : Node → List String
  | .text s => [s]
  | .elem _ _ _ _ ch => textsF ch

/-- The strings of all text nodes of a forest, in document order. -/
def textsF : Forest → List String
  | .nil => []
  | .cons n f => textsN n ++ textsF f
end

/-- BeautifulSoup `get_text(separator=' ', strip=True)`: each text node is
stripped, empty results are dropped, and the rest are joined with one
space. -/
def getTextF (f : Forest) : String :=
  String.intercalate " " (((textsF f).map pyStrip).filter (fun s => s ≠ ""))

/-- BeautifulSoup `get_text(separator=' ', strip=True)` on one node. -/
def getTextN (n : Node) : String := getTextF (.cons n .nil)

/-- CSS selectors of the shapes appearing in `selectors_to_remove` (lines
205 and 220-227 of the source): a tag name, a class, an id, a tag qualified
by a class, and a tag with a substring condition on one attribute. -/
inductive Sel where
  | tagName (t : String)
  | className (c : String)
  | idName (i : String)
  | tagClass (t c : String)
  | tagAttrSub (t a sub : String)
deriving DecidableEq

/-- Matching of one selector against one node, per CSS semantics as
implemented by BeautifulSoup `select`. -/
def selMatches (s : Sel) : Node → Bool
  | .text _ => false
  | .elem t i cls attrs _ =>
    match s with
    | .tagName t2 => t = t2
    | .className c => cls.contains c
    | .idName i2 => i = some i2
    | .tagClass t2 c => t = t2 && cls.contains c
    | .tagAttrSub t2 a sub =>
      t = t2 && attrs.any (fun kv => kv.1 = a && containsSub sub.data kv.2.data)

/-- Line 205 of the source: the boilerplate selectors removed inside the
`div.body-container-wrapper` strategy. -/
def selectors_to_remove_wrapper : List Sel :=
  [.tagName "header", .tagName "footer", .tagName "nav",
   .className "announcement_bar", .tagName "script", .tagName "style",
   .tagName "noscript"]

/-- One entry of the strategy-4 selector list: either a selector that
soupsieve compiles, or a string that is not valid CSS, on which `select`
raises `SelectorSyntaxError` (the crawler then stores
`f"{type(e).__name__}: {e}"`; the claims never inspect the message text, so
it is modelled loosely). -/
inductive SelSpec where
  | valid (s : Sel)
  | invalid (msg : List Char)
deriving DecidableEq

/-- Lines 220-227 of the source: the wider boilerplate selector set of the
body-fallback strategy, in source order.  The strings
`#hs-web-interactives-.*` and `.go[0-9]+` are not valid CSS selectors:
soupsieve (behind `select` in every BeautifulSoup release since 4.7) raises
`SelectorSyntaxError` while compiling them, so the pass that reaches them
raises instead of removing anything. -/
def selectors_to_remove_body : List SelSpec :=
  [.valid (.tagName "header"), .valid (.tagName "footer"),
   .valid (.tagName "nav"), .valid (.className "announcement_bar"),
   .valid (.tagClass "div" "header_mega_menu"),
   .valid (.tagClass "div" "header_fixed_manage"),
   .valid (.tagName "noscript"), .valid (.tagName "script"),
   .valid (.tagName "style"), .valid (.className "social-links"),
   .valid (.idName "sidebar"), .valid (.className "advertisement"),
   .valid (.className "cookie-consent"), .valid (.className "hs-skip-link"),
   .invalid "SelectorSyntaxError: Malformed id selector: #hs-web-interactives-.*".data,
   .invalid "SelectorSyntaxError: Malformed class selector: .go[0-9]+".data,
   .valid (.tagAttrSub "iframe" "src" "googletagmanager")]

mutual
/-- Removal of every element matching `s` from a subtree (an element that
matches is decomposed together with its whole subtree). -/
def removeSelN (s : Sel) : Node → Node
  | .text str => .text str
  | .elem t i cls attrs ch => .elem t i cls attrs (removeSelF s ch)

/-- Removal of every element matching `s` from a forest.  One call models
one `for element in temp_soup.select(selector): element.decompose()` pass of
the source: `select` lists every matching element and each is decomposed
(decomposing a node nested in an already-decomposed one is a no-op, so a
single top-down sweep gives the same tree). -/
def removeSelF (s : Sel) : Forest → Forest
  | .nil => .nil
  | .cons n f =>
    if selMatches s n then removeSelF s f
    else .cons (removeSelN s n) (removeSelF s f)
end

/-- Lines 207-210 and 229-232 of the source: the selectors are processed in
order, each pass decomposing all its matches. -/
def removeAllSel (sels : List Sel) (f : Forest) : Forest :=
  sels.foldl (fun acc s => removeSelF s acc) f

/-- Lines 229-232 of the source, for the strategy-4 list: the selector
passes run in order until one selector fails to compile, whose
`SelectorSyntaxError` escapes the pass — the working copy, removals already
performed included, is abandoned with it. -/
def removeAllSelE (sels : List SelSpec) (f : Forest) :
    Except (List Char) Forest :=
  match sels with
  | [] => .ok f
  | .valid s :: rest => removeAllSelE rest (removeSelF s f)
  | .invalid msg :: _ => .error msg

/-- Strategy-1 locator, line 186: `soup.find('main', id='main-content')`. -/
def isPrimaryLandmark : Node → Bool
  | .elem t i _ _ _ => t = "main" && i = some "main-content"
  | _ => false

/-- Strategy-2 locator, line 192: `soup.find('main')`. -/
def isMainTag : Node → Bool
  | .elem t _ _ _ _ => t = "main"
  | _ => false

/-- Strategy-3 locator, line 199: `soup.find('div',
class_='body-container-wrapper')`. -/
def isWrapperDiv : Node → Bool
  | .elem t _ cls _ _ => t = "div" && cls.contains "body-container-wrapper"
  | _ => false

/-- Strategy-4 locator, line 218: `soup.body`. -/
def isBodyTag : Node → Bool
  | .elem t _ _ _ _ => t = "body"
  | _ => false

/-- Lines 180-239 of the source: the four-strategy extraction cascade.
Returns the page text and the `extraction_method` label, or the message of
the exception the cascade raises.  In strategies 3 and 4 the source
re-parses `str(subtree)` into a fresh working copy before removal;
serialising and re-parsing the subtree round-trips it, so the copy is the
subtree itself.  The strategy-4 selector list contains invalid CSS, so the
body-cleanup arm raises (`removeAllSelE` reaches an `.invalid` entry) and
the page falls to the `except Exception` handler of line 288. -/
def extract (soup : Forest) : Except (List Char) (String × String) :=
  match findFirstF isPrimaryLandmark soup with
  | some m => .ok (getTextN m, "main#main-content")
  | none =>
    match findFirstF isMainTag soup with
    | some m => .ok (getTextN m, "<main> tag")
    | none =>
      match findFirstF isWrapperDiv soup with
      | some m =>
        .ok (getTextF (removeAllSel selectors_to_remove_wrapper (.cons m .nil)),
          "div.body-container-wrapper")
      | none =>
        match findFirstF isBodyTag soup with
        | some b =>
          (removeAllSelE selectors_to_remove_body (.cons b .nil)).map
            (fun f => (getTextF f, "Fallback (Body Cleanup)"))
        | none => .ok (getTextF soup, "Fallback (Full Document - No Body)")

/-- Line 242 of the source: `soup.title.string.strip() if soup.title and
soup.title.string else "No Title Found"`.  BeautifulSoup `.string` is the
unique text child, or `None` when the title has zero or several children;
an empty string is falsy in Python. -/
def titleOf (soup : Forest) : String :=
  match findFirstF (fun n => match n with
    | .elem t _ _ _ _ => t = "title"
    | _ => false) soup with
  | some (.elem _ _ _ _ (.cons (.text s) .nil)) =>
    if s ≠ "" then pyStrip s else "No Title Found"
  | _ => "No Title Found"

mutual
/-- Hrefs of the anchors in a node's subtree, in document order, line 253:
`soup.find_all('a', href=True)` followed by `link.get('href')`. -/
def hrefsN : Node → List String
  | .text _ => []
  | .elem t _ _ attrs ch =>
    (match (if t = "a" then attrs.find? (fun kv => kv.1 = "href") else none) with
     | some kv => [kv.2]
     | none => []) ++ hrefsF ch

/-- Hrefs of the anchors of a forest, in document order. -/
def hrefsF : Forest → List String
  | .nil => []
  | .cons n f => hrefsN n ++ hrefsF f
end

/-- Result record stored in `crawl_data` for one URL (lines 169, 243-248,
280, 284, 289 of the source). -/
inductive PageResult where
  | success (text title extraction_method : String)
  | skippedNonHtml (content_type : List Char)
  | fetchError (error_message : List Char)
  | processingError (error_message : List Char)
deriving DecidableEq

/-- The `status` field the record is serialised with. -/
def statusString : PageResult → List Char
  | .success _ _ _ => "success".data
  | .skippedNonHtml _ => "skipped_non_html".data
  | .fetchError _ => "error".data
  | .processingError _ => "processing_error".data

/-- Outcome of parsing the fetched bytes: lines 175-178 try `lxml` and fall
back to `html.parser`; only when both raise does the general `except` branch
record a processing error. -/
inductive ParseOutcome where
  | unparseable (msg : List Char)
  | parsed (soup : Forest)

/-- Outcome of `requests.get` as the crawler observes it: a timeout, another
transport failure, or a response carrying a status code, a `content-type`
header and a body. -/
inductive FetchResult where
  | timeout
  | transportError (msg : List Char)
  | response (statusCode : Nat) (contentType : List Char) (body : ParseOutcome)

/-- Message of the `requests.exceptions.HTTPError` that
`response.raise_for_status()` raises on a 4xx/5xx status; the crawler stores
`str(e)`, whose exact text the claims never inspect. -/
def httpErrorMessage (code : Nat) : List Char :=
  "HTTP error ".data ++ (toString code).data

/-- Python dict lookup on the association-list model of `crawl_data`. -/
def dlookup (k : List Char) : List (List Char × PageResult) → Option PageResult
  | [] => none
  | kv :: t => if kv.1 = k then some kv.2 else dlookup k t

/-- Python dict assignment `d[k] = v`: replaces the value of an existing
key in place, otherwise appends the new entry. -/
def dinsert (k : List Char) (v : PageResult)
    (d : List (List Char × PageResult)) : List (List Char × PageResult) :=
  if (dlookup k d).isSome then
    d.map (fun kv => if kv.1 = k then (k, v) else kv)
  else d ++ [(k, v)]

/-- Frontier of the crawl: the pending FIFO `queue` and the `visited_urls`
set. -/
structure Frontier where
  queue : List (List Char)
  visited : List (List Char)
deriving DecidableEq

/-- Lines 265-267 of the source: a discovered absolute URL is appended to
the queue only when it passes `is_valid_url` and is in neither
`visited_urls` nor the queue. -/
def frontier_enqueue (fr : Frontier) (absolute_url : List Char) : Frontier :=
  if is_valid_url absolute_url ∧ absolute_url ∉ fr.visited ∧
      absolute_url ∉ fr.queue then
    { fr with queue := fr.queue ++ [absolute_url] }
  else fr

/-- One harvested href, lines 254-267 of the source: once an earlier href
has raised (the error component is sticky) the rest of the loop never runs;
otherwise an empty href is skipped, and a nonempty one is stripped and
resolved by `urljoin`, whose `ValueError` aborts the harvest, the normalised
absolute URL being offered to the frontier on success. -/
def harvestStep (currentUrl : List Char) (acc : Frontier × Option (List Char))
    (href : String) : Frontier × Option (List Char) :=
  match acc.2 with
  | some _ => acc
  | none =>
    if href.data = [] then acc
    else
      match urljoinModelE currentUrl (stripWs href.data) with
      | .error msg => (acc.1, some msg)
      | .ok _ =>
        (frontier_enqueue acc.1 (normalizeHarvestedLink currentUrl href.data),
         none)

/-- Lines 253-267 of the source: the href loop over the document.  Returns
the frontier reached and, when a `urljoin` raised mid-loop, the message of
the exception that escapes to the handler of line 288 — links enqueued
before the raise stay enqueued. -/
def harvestLinksE (currentUrl : List Char) (soup : Forest) (fr : Frontier) :
    Frontier × Option (List Char) :=
  (hrefsF soup).foldl (harvestStep currentUrl) (fr, none)

/-- The mutable state of `crawl`: the deque, the global `visited_urls`,
`crawl_data`, `pages_crawled` and `last_save_count`, plus the list of
snapshots handed to `save_data` so far (most recent last), standing for the
writes to the output file. -/
structure CrawlState where
  queue : List (List Char)
  visited : List (List Char)
  crawl_data : List (List Char × PageResult)
  pages_crawled : Nat
  last_save_count : Nat
  saves : List (List (List Char × PageResult))
deriving DecidableEq

/-- One iteration of the `while queue:` loop, lines 132-294 of the source,
parametrised by the fetch oracle `fetchO` standing for the network.
`none` means the loop guard failed (empty queue) and the crawl drains.
`raise_for_status` raises exactly on `400 ≤ code < 600`.  An exception
raised during extraction reaches `except Exception` before the success store
of line 243, so only a `processing_error` entry is written; one raised
during the link harvest arrives after it, so the `except` assignment
overwrites the success entry, the links enqueued before the raise stay, and
in either case the periodic-save check of line 274 is not reached.  The
`except KeyboardInterrupt` branch is unreachable once `signal.signal` has
replaced the default SIGINT behaviour, and interruption is modelled at the
process level by `processTermination` instead. -/
def crawlStep (fetchO : List Char → FetchResult) (s : CrawlState) :
    Option CrawlState :=
  match s.queue with
  | [] => none
  | u0 :: rest =>
    let current_url := dequeueNormalize u0
    if current_url ∈ s.visited then
      some { s with queue := rest }
    else
      let s1 : CrawlState := { s with queue := rest, visited := current_url :: s.visited }
      match fetchO current_url with
      | .timeout =>
        some { s1 with
          crawl_data := dinsert current_url (.fetchError "Request timed out".data) s1.crawl_data,
          pages_crawled := s1.pages_crawled + 1 }
      | .transportError msg =>
        some { s1 with
          crawl_data := dinsert current_url (.fetchError msg) s1.crawl_data,
          pages_crawled := s1.pages_crawled + 1 }
      | .response code ctype body =>
        if 400 ≤ code ∧ code < 600 then
          some { s1 with
            crawl_data := dinsert current_url (.fetchError (httpErrorMessage code)) s1.crawl_data,
            pages_crawled := s1.pages_crawled + 1 }
        else
          let content_type := pyLowerStr ctype
          if ¬ containsSub "text/html".data content_type then
            some { s1 with
              crawl_data := dinsert current_url (.skippedNonHtml content_type) s1.crawl_data,
              pages_crawled := s1.pages_crawled + 1 }
          else
            match body with
            | .unparseable msg =>
              some { s1 with
                crawl_data := dinsert current_url (.processingError msg) s1.crawl_data,
                pages_crawled := s1.pages_crawled + 1 }
            | .parsed soup =>
              match extract soup with
              | .error msg =>
                some { s1 with
                  crawl_data := dinsert current_url (.processingError msg) s1.crawl_data,
                  pages_crawled := s1.pages_crawled + 1 }
              | .ok pe =>
                let page_title := titleOf soup
                let d2 := dinsert current_url (.success pe.1 page_title pe.2) s1.crawl_data
                let hl := harvestLinksE current_url soup ⟨s1.queue, s1.visited⟩
                match hl.2 with
                | some msg =>
                  some { queue := hl.1.queue, visited := hl.1.visited,
                         crawl_data := dinsert current_url (.processingError msg) d2,
                         pages_crawled := s1.pages_crawled + 1,
                         last_save_count := s1.last_save_count,
                         saves := s1.saves }
                | none =>
                  let pc := s1.pages_crawled + 1
                  if pc % SAVE_EVERY_N_PAGES = 0 ∧ s1.last_save_count < pc then
                    some { queue := hl.1.queue, visited := hl.1.visited,
                           crawl_data := d2,
                           pages_crawled := pc, last_save_count := pc,
                           saves := s1.saves ++ [d2] }
                  else
                    some { queue := hl.1.queue, visited := hl.1.visited,
                           crawl_data := d2,
                           pages_crawled := pc,
                           last_save_count := s1.last_save_count,
                           saves := s1.saves }

example : crawlStep
    (fun _ => .response 200 "text/html".data (.parsed
      (.cons (.elem "html" none [] []
        (.cons (.elem "body" none [] []
          (.cons (.elem "main" (some "main-content") [] []
            (.cons (.text "Hello World") .nil))
          (.cons (.elem "a" none [] [("href", "/about")] .nil)
          .nil)))
        .nil))
      .nil)))
    ⟨[START_URL], [], [], 0, 0, []⟩ =
  some ⟨["https://www.workstream.us/about".data], [START_URL],
    [(START_URL, .success "Hello World" "No Title Found" "main#main-content")],
    1, 0, []⟩ := by
  decide

/-- How the call `crawl(START_URL)` inside the `try` of the main block can
finish: return normally, raise an ordinary exception, or raise the
`SystemExit` of `sys.exit` (which `except Exception` does not catch). -/
inductive CrawlExit where
  | normal
  | raisedException (msg : List Char)
  | raisedSystemExit (code : Nat)

/-- Lines 56-60 of the source, the SIGINT handler: it saves the current
`crawl_data` once and calls `sys.exit(0)`, which raises `SystemExit 0` at
the interrupted point inside `crawl`. -/
def signal_handler (d : List (List Char × PageResult)) :
    List (List (List Char × PageResult)) × CrawlExit :=
  ([d], .raisedSystemExit 0)

/-- Lines 317-333 of the source, the `try/except Exception/finally` around
`crawl(START_URL)`: returns the snapshots written by the block and the exit
status of the process.  A normal return and a caught exception both reach
the end of the script (status 0) after the `finally` save; a `SystemExit`
passes `except Exception`, still runs the `finally` save, and terminates the
process with its code. -/
def mainBlock : CrawlExit → List (List Char × PageResult) →
    List (List (List Char × PageResult)) × Nat
  | .normal, d => ([d], 0)
  | .raisedException _, d => ([d], 0)
  | .raisedSystemExit c, d => ([d], c)

/-- The three ways the process can terminate. -/
inductive TermOutcome where
  | completed
  | interrupted
  | fatalError (msg : List Char)

/-- End-to-end termination behaviour: the snapshots persisted on the way out
(in order) and the process exit status, for each termination outcome, with
`d` the `crawl_data` at that moment.  An operator interrupt runs
`signal_handler` and its `SystemExit` then propagates through the main
block. -/
def processTermination : TermOutcome → List (List Char × PageResult) →
    List (List (List Char × PageResult)) × Nat
  | .completed, d => mainBlock .normal d
  | .fatalError m, d => mainBlock (.raisedException m) d
  | .interrupted, d =>
    let h := signal_handler d
    let r := mainBlock h.2 d
    (h.1 ++ r.1, r.2)

/-- A document with the primary landmark, a bare `<main>`, the wrapper div
and a body all present at once. -/
def docC5 : Forest :=
  .cons (.elem "html" none [] []
    (.cons (.elem "body" none [] []
      (.cons (.elem "div" none ["body-container-wrapper"] []
        (.cons (.elem "main" (some "main-content") [] []
          (.cons (.text "Hello World") .nil))
        (.cons (.elem "main" none [] [] (.cons (.text "other") .nil))
        .nil)))
      .nil))
    .nil))
  .nil

/-- The data of a node that selector matching can observe: tag, id, classes
and attributes — never the children. -/
def nodeShell : Node → Option (String × Option String × List String × List (String × String))
  | .text _ => none
  | .elem t i cls attrs _ => some (t, i, cls, attrs)

/-- The wrapper div of `docC6`: a header (boilerplate) next to a paragraph
of content. -/
def mC6 : Node :=
  .elem "div" none ["body-container-wrapper"] []
    (.cons (.elem "header" none [] [] (.cons (.text "NAV") .nil))
    (.cons (.elem "p" none [] [] (.cons (.text "Content") .nil))
    .nil))

/-- A document with no `<main>` at all, handled by strategy 3. -/
def docC6 : Forest := .cons mC6 .nil

/-- A document with a `<body>` (holding a header and a paragraph) and none
of the strategy 1-3 landmarks: extraction reaches the body-fallback
strategy, whose selector list contains invalid CSS. -/
def docC6body : Forest :=
  .cons (.elem "html" none [] []
    (.cons (.elem "body" none [] []
      (.cons (.elem "header" none [] [] (.cons (.text "NAV") .nil))
      (.cons (.elem "p" none [] [] (.cons (.text "Content") .nil))
      .nil)))
    .nil))
  .nil

/-- Inputs of the C3 witness: one URL already recorded, another pending. -/
def sC3 : CrawlState :=
  ⟨["https://www.workstream.us/b".data],
   ["https://www.workstream.us/a".data],
   [("https://www.workstream.us/a".data, .fetchError "Request timed out".data)],
   1, 0, []⟩

/-- State after one timeout step from `sC3`. -/
def sC3' : CrawlState :=
  ⟨[],
   ["https://www.workstream.us/b".data, "https://www.workstream.us/a".data],
   [("https://www.workstream.us/a".data, .fetchError "Request timed out".data),
    ("https://www.workstream.us/b".data, .fetchError "Request timed out".data)],
   2, 0, []⟩

/-- Inputs of the C10 witness. -/
def sC10 : CrawlState :=
  ⟨["https://www.workstream.us/c".data],
   ["https://www.workstream.us/a".data],
   [("https://www.workstream.us/a".data, .skippedNonHtml "text/plain".data)],
   1, 0, []⟩

/-- State after one timeout step from `sC10`. -/
def sC10' : CrawlState :=
  ⟨[],
   ["https://www.workstream.us/c".data, "https://www.workstream.us/a".data],
   [("https://www.workstream.us/a".data, .skippedNonHtml "text/plain".data),
    ("https://www.workstream.us/c".data, .fetchError "Request timed out".data)],
   2, 0, []⟩

/-- Inputs of the C2 witness: 199 pages processed so far (one of them a
recorded error), page 200 arrives successfully. -/
def sC2 : CrawlState :=
  ⟨["https://www.workstream.us/two-hundred".data],
   ["https://www.workstream.us/err".data],
   [("https://www.workstream.us/err".data, .fetchError "Request timed out".data)],
   199, 0, []⟩

/-- The trailing-slash rule exactly as claim C8 words it: after dropping the
fragment, strip a SINGLE trailing `'/'` when the path is nonempty and not
exactly `"/"`. -/
def specNormalizeSingleStrip (absolute : List Char) : List Char :=
  let p := urlparseModel absolute
  let defragged := urlunsplitModel { p with fragment := [] }
  if p.path ≠ [] ∧ p.path ≠ "/".data ∧ pyEndsWith defragged "/".data then
    defragged.dropLast
  else defragged

/-- The scope-filter predicate exactly as claim C7 words it: scheme is
`http` or `https`, host equals the allowed host exactly (no subdomain
matching), and the lowercased path — ignoring the query string — does not
end in one of the denylist extensions.  It has no condition on `'#'`. -/
def isInScopeClaim (u : List Char) : Bool :=
  let p := urlparseModel u
  decide (((p.scheme = "http".data ∨ p.scheme = "https".data) ∧
    p.netloc = ALLOWED_DOMAIN ∧
    ¬ excluded_extensions.any (fun ext =>
        pyEndsWith (pyLowerStr p.path) ext) = true))

/-- The claim C7 predicate amended with the `'#' ∉ u` condition the code
also enforces. -/
def isInScopeSpec (u : List Char) : Bool :=
  let p := urlparseModel u
  decide (((p.scheme = "http".data ∨ p.scheme = "https".data) ∧
    p.netloc = ALLOWED_DOMAIN ∧ '#' ∉ u ∧
    ¬ excluded_extensions.any (fun ext =>
        pyEndsWith (pyLowerStr p.path) ext) = true))

example : extract docC6 = .ok ("Content", "div.body-container-wrapper") := rfl

example : ∃ m, extract docC6body = .error m := ⟨_, rfl⟩

/-- C1 counterexample: the claim requires the interrupted, completed and
fatal-error terminations to exit with pairwise distinct status codes, but at
any concrete data (here the empty result map) the three exit codes coincide:
`signal_handler` calls `sys.exit(0)`, a completed crawl reaches the end of
the script (status 0), and a fatal error is swallowed by `except Exception`
so the script also ends with status 0. -/
theorem c1_counterexample :
    (processTermination .interrupted []).2 = (processTermination .completed []).2 ∧
    (processTermination .completed []).2 = (processTermination (.fatalError []) []).2 ∧
    (processTermination .interrupted []).2 = 0 := by
  decide

/-- C1 (amended): on an operator-issued interrupt the process persists a
final snapshot (twice: once in the handler, once in the `finally`) and then
exits, but the three termination outcomes do not get distinct exit codes:
interrupted, completed and fatal top-level error all exit with status 0,
each after persisting a final snapshot. -/
theorem c1_exit_discipline (d : List (List Char × PageResult)) :
    processTermination .interrupted d = ([d, d], 0) ∧
    processTermination .completed d = ([d], 0) ∧
    (∀ m, processTermination (.fatalError m) d = ([d], 0)) := by
  refine ⟨rfl, rfl, fun m => rfl⟩

/-- C4: frontier enqueue is idempotent — enqueueing a normalized URL twice
yields the same frontier state (queue plus seen set) as enqueueing it once,
and a URL already in the seen set or already pending in the queue is never
appended. -/
theorem c4_enqueue_idempotent (fr : Frontier) (u : List Char) :
    frontier_enqueue (frontier_enqueue fr u) u = frontier_enqueue fr u ∧
    (u ∈ fr.visited ∨ u ∈ fr.queue → frontier_enqueue fr u = fr) := by
  constructor
  · unfold frontier_enqueue
    by_cases h : is_valid_url u = true ∧ u ∉ fr.visited ∧ u ∉ fr.queue
    · rw [if_pos h]
      have hno : ¬ (is_valid_url u = true ∧
          u ∉ ({ fr with queue := fr.queue ++ [u] } : Frontier).visited ∧
          u ∉ ({ fr with queue := fr.queue ++ [u] } : Frontier).queue) := by
        intro hc
        exact hc.2.2 (by simp)
      rw [if_neg hno]
    · rw [if_neg h, if_neg h]
  · intro hmem
    unfold frontier_enqueue
    rw [if_neg]
    intro hc
    rcases hmem with hv | hq
    · exact hc.2.1 hv
    · exact hc.2.2 hq

/-- Witness for C4 at a concrete frontier: the URL is already pending, so a
second enqueue changes nothing. -/
theorem c4_enqueue_idempotent_witness :
    frontier_enqueue (frontier_enqueue ⟨["https://www.workstream.us/a".data], []⟩
        "https://www.workstream.us/a".data) "https://www.workstream.us/a".data =
      frontier_enqueue ⟨["https://www.workstream.us/a".data], []⟩
        "https://www.workstream.us/a".data ∧
    frontier_enqueue ⟨["https://www.workstream.us/a".data], []⟩
        "https://www.workstream.us/a".data =
      ⟨["https://www.workstream.us/a".data], []⟩ :=
  ⟨(c4_enqueue_idempotent _ _).1,
   (c4_enqueue_idempotent ⟨["https://www.workstream.us/a".data], []⟩
       "https://www.workstream.us/a".data).2 (Or.inr (by simp))⟩

mutual
theorem findFirstN_none_all (p : Node → Bool) :
    ∀ (n : Node), findFirstN p n = none → ∀ e ∈ elemsN n, p e = false
  | .text s => by
    intro _ e he
    simp [elemsN] at he
  | .elem t i cls attrs ch => by
    intro h e he
    simp only [findFirstN] at h
    split at h
    · cases h
    · rename_i hp
      simp only [elemsN, List.mem_cons] at he
      rcases he with rfl | he
      · simpa using hp
      · exact findFirstF_none_all p ch h e he

theorem findFirstF_none_all (p : Node → Bool) :
    ∀ (f : Forest), findFirstF p f = none → ∀ e ∈ elemsF f, p e = false
  | .nil => by
    intro _ e he
    simp [elemsF] at he
  | .cons n f => by
    intro h e he
    simp only [findFirstF] at h
    cases hn : findFirstN p n with
    | some r => rw [hn] at h; cases h
    | none =>
      rw [hn] at h
      simp only [elemsF, List.mem_append] at he
      rcases he with he | he
      · exact findFirstN_none_all p n hn e he
      · exact findFirstF_none_all p f h e he
end

/-- C5: the extractor's strategies run in fixed priority order — whenever
the document contains the primary landmark `<main id="main-content">`, the
recorded `extraction_method` is the primary landmark strategy, whatever else
the document contains. -/
theorem c5_primary_landmark_first (soup : Forest)
    (h : ∃ e ∈ elemsF soup, isPrimaryLandmark e = true) :
    ∃ txt, extract soup = .ok (txt, "main#main-content") := by
  unfold extract
  cases hf : findFirstF isPrimaryLandmark soup with
  | some m => exact ⟨getTextN m, rfl⟩
  | none =>
    obtain ⟨e, he, hp⟩ := h
    have := findFirstF_none_all _ _ hf e he
    rw [hp] at this
    cases this

/-- Witness for C5: on `docC5`, which also contains a bare `<main>`, the
wrapper div and a body, the method is still the primary landmark. -/
theorem c5_primary_landmark_first_witness :
    (∃ e ∈ elemsF docC5, isPrimaryLandmark e = true) ∧
    ∃ txt, extract docC5 = Except.ok (txt, "main#main-content") :=
  ⟨⟨.elem "main" (some "main-content") [] [] (.cons (.text "Hello World") .nil),
    by simp [docC5, elemsF, elemsN], by rfl⟩,
   c5_primary_landmark_first docC5
     ⟨.elem "main" (some "main-content") [] [] (.cons (.text "Hello World") .nil),
      by simp [docC5, elemsF, elemsN], by rfl⟩⟩

theorem selMatches_shell_congr {s : Sel} {e e0 : Node}
    (h : nodeShell e0 = nodeShell e) : selMatches s e0 = selMatches s e := by
  cases e0 with
  | text s0 =>
    cases e with
    | text s1 => cases s <;> rfl
    | elem t i cls attrs ch => simp [nodeShell] at h
  | elem t0 i0 cls0 attrs0 ch0 =>
    cases e with
    | text s1 => simp [nodeShell] at h
    | elem t i cls attrs ch =>
      simp only [nodeShell, Option.some.injEq, Prod.mk.injEq] at h
      obtain ⟨rfl, rfl, rfl, rfl⟩ := h
      cases s <;> rfl

mutual
theorem removeSelN_shell (s : Sel) :
    ∀ (n : Node), selMatches s n = false → ∀ e ∈ elemsN (removeSelN s n),
      ∃ e0, e0 ∈ elemsN n ∧ nodeShell e0 = nodeShell e ∧ selMatches s e0 = false
  | .text str => by
    intro _ e he
    simp [removeSelN, elemsN] at he
  | .elem t i cls attrs ch => by
    intro hm e he
    simp only [removeSelN, elemsN, List.mem_cons] at he
    rcases he with rfl | he
    · refine ⟨.elem t i cls attrs ch, ?_, ?_, hm⟩
      · simp [elemsN]
      · rfl
    · obtain ⟨e0, he0, hsh, hm0⟩ := removeSelF_shell s ch e he
      exact ⟨e0, by simp [elemsN, he0], hsh, hm0⟩

theorem removeSelF_shell (s : Sel) :
    ∀ (f : Forest), ∀ e ∈ elemsF (removeSelF s f),
      ∃ e0, e0 ∈ elemsF f ∧ nodeShell e0 = nodeShell e ∧ selMatches s e0 = false
  | .nil => by
    intro e he
    simp [removeSelF, elemsF] at he
  | .cons n f => by
    intro e he
    simp only [removeSelF] at he
    split at he
    · obtain ⟨e0, he0, hsh, hm0⟩ := removeSelF_shell s f e he
      exact ⟨e0, by simp [elemsF, he0], hsh, hm0⟩
    · rename_i hm
      simp only [elemsF, List.mem_append] at he
      rcases he with he | he
      · obtain ⟨e0, he0, hsh, hm0⟩ :=
          removeSelN_shell s n (Bool.eq_false_iff.mpr hm) e he
        exact ⟨e0, by simp [elemsF, he0], hsh, hm0⟩
      · obtain ⟨e0, he0, hsh, hm0⟩ := removeSelF_shell s f e he
        exact ⟨e0, by simp [elemsF, he0], hsh, hm0⟩
end

theorem removeSelF_no_match (s : Sel) (f : Forest) :
    ∀ e ∈ elemsF (removeSelF s f), selMatches s e = false := by
  intro e he
  obtain ⟨e0, _, hsh, hm0⟩ := removeSelF_shell s f e he
  exact (selMatches_shell_congr hsh) ▸ hm0

theorem removeSelF_pres (s0 s : Sel) (f : Forest)
    (h : ∀ e ∈ elemsF f, selMatches s0 e = false) :
    ∀ e ∈ elemsF (removeSelF s f), selMatches s0 e = false := by
  intro e he
  obtain ⟨e0, he0, hsh, _⟩ := removeSelF_shell s f e he
  exact (selMatches_shell_congr hsh) ▸ h e0 he0

theorem removeAllSel_pres (s0 : Sel) (sels : List Sel) :
    ∀ (f : Forest), (∀ e ∈ elemsF f, selMatches s0 e = false) →
      ∀ e ∈ elemsF (removeAllSel sels f), selMatches s0 e = false := by
  induction sels with
  | nil => intro f h e he; exact h e he
  | cons s1 rest ih =>
    intro f h e he
    exact ih (removeSelF s1 f) (removeSelF_pres s0 s1 f h) e he

/-- After the selector passes of lines 207-210 / 229-232, no element
matching any of the processed selectors remains in the working copy. -/
theorem removeAllSel_no_match (sels : List Sel) :
    ∀ (f : Forest), ∀ s ∈ sels, ∀ e ∈ elemsF (removeAllSel sels f),
      selMatches s e = false := by
  induction sels with
  | nil => intro f s hs; cases hs
  | cons s1 rest ih =>
    intro f s hs e he
    rcases List.mem_cons.mp hs with rfl | hs
    · exact removeAllSel_pres s rest (removeSelF s f)
        (removeSelF_no_match s f) e he
    · exact ih (removeSelF s1 f) s hs e he

/-- The strategy-4 pass always raises on whatever working copy it is given:
its selector list reaches an invalid entry before running out. -/
theorem removeAllSelE_body (f : Forest) :
    ∃ msg, removeAllSelE selectors_to_remove_body f = .error msg :=
  ⟨_, rfl⟩

/-- C6 counterexample: the claim says the body-fallback strategy extracts
the text of a copy cleaned with the wider selector set, but that selector
list contains the invalid CSS strings `#hs-web-interactives-.*` and
`.go[0-9]+`, on which `select` raises `SelectorSyntaxError`; a page with a
`<body>` and none of the earlier landmarks is therefore recorded with
status `processing_error`, not with cleaned strategy-4 text. -/
theorem c6_counterexample :
    ((crawlStep (fun _ => .response 200 "text/html".data (.parsed docC6body))
        ⟨["https://www.workstream.us/z".data], [], [], 0, 0, []⟩).bind
      (fun s2 => dlookup "https://www.workstream.us/z".data s2.crawl_data)).map
        statusString = some "processing_error".data := by
  decide

/-- C6 (amended): scope of boilerplate removal.  For a document handled by
strategy 1 or 2, the text of the located subtree is extracted verbatim, with
no removal applied.  For a document handled by strategy 3 (the named wrapper
class), the text is the text of a working copy from which every element
matching a selector of that strategy's set has been removed — no text of a
matching element remains.  Strategy 4 (the body fallback) never completes:
its selector list contains invalid CSS on which `select` raises, so a page
that reaches it becomes a processing error instead of yielding text; a
document with no `<body>` at all is extracted verbatim. -/
theorem c6_boilerplate_removal_scope (soup : Forest) (m : Node) :
    (findFirstF isPrimaryLandmark soup = some m →
      extract soup = .ok (getTextN m, "main#main-content")) ∧
    (findFirstF isPrimaryLandmark soup = none →
     findFirstF isMainTag soup = some m →
      extract soup = .ok (getTextN m, "<main> tag")) ∧
    (findFirstF isPrimaryLandmark soup = none →
     findFirstF isMainTag soup = none →
     findFirstF isWrapperDiv soup = some m →
      extract soup =
        .ok (getTextF (removeAllSel selectors_to_remove_wrapper (.cons m .nil)),
          "div.body-container-wrapper") ∧
      (∀ s ∈ selectors_to_remove_wrapper,
        ∀ e ∈ elemsF (removeAllSel selectors_to_remove_wrapper (.cons m .nil)),
          selMatches s e = false)) ∧
    (findFirstF isPrimaryLandmark soup = none →
     findFirstF isMainTag soup = none →
     findFirstF isWrapperDiv soup = none →
     findFirstF isBodyTag soup = some m →
      ∃ msg, extract soup = .error msg) ∧
    (findFirstF isPrimaryLandmark soup = none →
     findFirstF isMainTag soup = none →
     findFirstF isWrapperDiv soup = none →
     findFirstF isBodyTag soup = none →
      extract soup = .ok (getTextF soup, "Fallback (Full Document - No Body)")) := by
  refine ⟨?_, ?_, ?_, ?_, ?_⟩
  · intro h1
    unfold extract
    rw [h1]
  · intro h1 h2
    unfold extract
    rw [h1, h2]
  · intro h1 h2 h3
    refine ⟨?_, fun s hs e he => removeAllSel_no_match _ _ s hs e he⟩
    unfold extract
    rw [h1, h2, h3]
  · intro h1 h2 h3 h4
    obtain ⟨msg, hmsg⟩ := removeAllSelE_body (.cons m .nil)
    refine ⟨msg, ?_⟩
    unfold extract
    rw [h1, h2, h3, h4]
    dsimp only
    rw [hmsg]
    rfl
  · intro h1 h2 h3 h4
    unfold extract
    rw [h1, h2, h3, h4]

/-- Witness for C6 at `docC6`: strategy 3 fires, the text is the text of
the cleaned copy, and no element matching a wrapper-strategy selector
survives in that copy. -/
theorem c6_boilerplate_removal_scope_witness :
    extract docC6 =
      Except.ok
        (getTextF (removeAllSel selectors_to_remove_wrapper (.cons mC6 .nil)),
         "div.body-container-wrapper") ∧
    (∀ s ∈ selectors_to_remove_wrapper,
      ∀ e ∈ elemsF (removeAllSel selectors_to_remove_wrapper (.cons mC6 .nil)),
        selMatches s e = false) :=
  (c6_boilerplate_removal_scope docC6 mC6).2.2.1 rfl rfl rfl

theorem dlookup_map_replace (u k : List Char) (v : PageResult) (hne : u ≠ k)
    (d : List (List Char × PageResult)) :
    dlookup u (d.map (fun kv => if kv.1 = k then (k, v) else kv)) = dlookup u d := by
  induction d with
  | nil => rfl
  | cons kv t ih =>
    by_cases h1 : kv.1 = k
    · simp only [List.map_cons, if_pos h1, dlookup]
      rw [if_neg (fun hh : k = u => hne hh.symm), if_neg (fun hh : kv.1 = u => hne (h1 ▸ hh).symm)]
      exact ih
    · simp only [List.map_cons, if_neg h1, dlookup]
      split
      · rfl
      · exact ih

theorem dlookup_append_one (u k : List Char) (v : PageResult) (hne : k ≠ u)
    (d : List (List Char × PageResult)) :
    dlookup u (d ++ [(k, v)]) = dlookup u d := by
  induction d with
  | nil => simp [dlookup, hne]
  | cons kv t ih =>
    simp only [List.cons_append, dlookup]
    split
    · rfl
    · exact ih

/-- A dict assignment to key `k` leaves the entry of any other key alone. -/
theorem dlookup_dinsert_ne (u k : List Char) (v : PageResult)
    (d : List (List Char × PageResult)) (hne : u ≠ k) :
    dlookup u (dinsert k v d) = dlookup u d := by
  unfold dinsert
  split
  · exact dlookup_map_replace u k v hne d
  · exact dlookup_append_one u k v (fun h => hne h.symm) d

theorem dlookup_map_replace_self (k : List Char) (v : PageResult) :
    ∀ (d : List (List Char × PageResult)), (dlookup k d).isSome →
      dlookup k (d.map (fun kv => if kv.1 = k then (k, v) else kv)) = some v := by
  intro d
  induction d with
  | nil => intro h; cases h
  | cons kv t ih =>
    intro h
    by_cases h1 : kv.1 = k
    · simp [List.map_cons, if_pos h1, dlookup]
    · simp only [dlookup, if_neg h1] at h
      simp only [List.map_cons, if_neg h1, dlookup, if_neg h1]
      exact ih h

theorem dlookup_append_one_self (k : List Char) (v : PageResult) :
    ∀ (d : List (List Char × PageResult)), dlookup k d = none →
      dlookup k (d ++ [(k, v)]) = some v := by
  intro d
  induction d with
  | nil => simp [dlookup]
  | cons kv t ih =>
    intro h
    simp only [dlookup] at h
    split at h
    · cases h
    · rename_i hh
      simp only [List.cons_append, dlookup, if_neg hh]
      exact ih h

/-- A dict assignment makes the assigned value the one looked up. -/
theorem dlookup_dinsert_self (k : List Char) (v : PageResult)
    (d : List (List Char × PageResult)) :
    dlookup k (dinsert k v d) = some v := by
  unfold dinsert
  split
  · rename_i h
    exact dlookup_map_replace_self k v d h
  · rename_i h
    exact dlookup_append_one_self k v d (Option.not_isSome_iff_eq_none.mp h)

theorem map_replace_not_mem (k : List Char) (v : PageResult) :
    ∀ (d : List (List Char × PageResult)), dlookup k d = none →
      d.map (fun kv => if kv.1 = k then (k, v) else kv) = d := by
  intro d
  induction d with
  | nil => intro h; rfl
  | cons kv t ih =>
    intro h
    unfold dlookup at h
    split at h
    · cases h
    · rename_i hne
      simp only [List.map_cons, if_neg hne, ih h]

/-- Two consecutive dict assignments to one key collapse to the last: the
`except` branch of line 288 overwrites the success entry its `try` block
already stored. -/
theorem dinsert_dinsert_same (k : List Char) (v1 v2 : PageResult)
    (d : List (List Char × PageResult)) :
    dinsert k v2 (dinsert k v1 d) = dinsert k v2 d := by
  by_cases h : (dlookup k d).isSome
  · have h1 : dlookup k (d.map (fun kv => if kv.1 = k then (k, v1) else kv)) =
        some v1 := dlookup_map_replace_self k v1 d h
    unfold dinsert
    rw [if_pos h, if_pos (by rw [h1]; rfl), if_pos h, List.map_map]
    apply List.map_congr_left
    intro kv _
    by_cases hk : kv.1 = k
    · simp [Function.comp, hk]
    · simp [Function.comp, hk]
  · have hn : dlookup k d = none := Option.not_isSome_iff_eq_none.mp h
    have h1 : dlookup k (d ++ [(k, v1)]) = some v1 :=
      dlookup_append_one_self k v1 d hn
    unfold dinsert
    rw [if_neg h, if_pos (by rw [h1]; rfl), if_neg h,
      List.map_append, map_replace_not_mem k v2 d hn]
    simp

/-- Assigning a fresh key grows the dict by exactly one entry. -/
theorem length_dinsert_fresh (k : List Char) (v : PageResult)
    (d : List (List Char × PageResult)) (h : dlookup k d = none) :
    (dinsert k v d).length = d.length + 1 := by
  unfold dinsert
  rw [if_neg (by simp [h])]
  simp

theorem frontier_enqueue_visited (fr : Frontier) (u : List Char) :
    (frontier_enqueue fr u).visited = fr.visited := by
  unfold frontier_enqueue
  split <;> rfl

theorem harvestStep_visited (cu : List Char) (fr : Frontier)
    (o : Option (List Char)) (href : String) :
    (harvestStep cu (fr, o) href).1.visited = fr.visited := by
  cases o with
  | some m => rfl
  | none =>
    unfold harvestStep
    dsimp only
    by_cases hh : href.data = []
    · rw [if_pos hh]
    · rw [if_neg hh]
      cases urljoinModelE cu (stripWs href.data) with
      | error m => rfl
      | ok a => exact frontier_enqueue_visited _ _

theorem harvestFold_visited (cu : List Char) (l : List String) :
    ∀ acc : Frontier × Option (List Char),
      (l.foldl (harvestStep cu) acc).1.visited = acc.1.visited := by
  induction l with
  | nil => intro acc; rfl
  | cons h t ih =>
    intro acc
    rw [List.foldl_cons, ih]
    exact harvestStep_visited cu acc.1 acc.2 h

/-- Harvesting links only appends to the queue; it never touches
`visited_urls` — whether or not a `urljoin` raises mid-loop. -/
theorem harvestLinksE_visited (cu : List Char) (soup : Forest) (fr : Frontier) :
    (harvestLinksE cu soup fr).1.visited = fr.visited := by
  unfold harvestLinksE
  exact harvestFold_visited cu (hrefsF soup) (fr, none)

/-- Every successful `crawlStep` either skips an already-visited URL,
changing nothing but the queue, or processes the dequeued URL: it marks it
visited, stores exactly one result for it and increments `pages_crawled` by
exactly one. -/
theorem crawlStep_cases (fetchO : List Char → FetchResult) (s s' : CrawlState)
    (hstep : crawlStep fetchO s = some s') :
    (∃ u0 rest, s.queue = u0 :: rest ∧ dequeueNormalize u0 ∈ s.visited ∧
      s' = { s with queue := rest }) ∨
    (∃ u0 rest res, s.queue = u0 :: rest ∧ dequeueNormalize u0 ∉ s.visited ∧
      s'.visited = dequeueNormalize u0 :: s.visited ∧
      s'.crawl_data = dinsert (dequeueNormalize u0) res s.crawl_data ∧
      s'.pages_crawled = s.pages_crawled + 1) := by
  cases hq : s.queue with
  | nil =>
    unfold crawlStep at hstep
    rw [hq] at hstep
    cases hstep
  | cons u0 rest =>
    unfold crawlStep at hstep
    rw [hq] at hstep
    dsimp only at hstep
    by_cases hv : dequeueNormalize u0 ∈ s.visited
    · rw [if_pos hv] at hstep
      cases hstep
      exact Or.inl ⟨u0, rest, rfl, hv, rfl⟩
    · rw [if_neg hv] at hstep
      refine Or.inr ⟨u0, rest, ?_⟩
      cases hf : fetchO (dequeueNormalize u0) with
      | timeout =>
        rw [hf] at hstep
        cases hstep
        exact ⟨.fetchError "Request timed out".data, rfl, hv, rfl, rfl, rfl⟩
      | transportError m =>
        rw [hf] at hstep
        cases hstep
        exact ⟨.fetchError m, rfl, hv, rfl, rfl, rfl⟩
      | response code ctype body =>
        rw [hf] at hstep
        dsimp only at hstep
        by_cases hc : 400 ≤ code ∧ code < 600
        · rw [if_pos hc] at hstep
          cases hstep
          exact ⟨.fetchError (httpErrorMessage code), rfl, hv, rfl, rfl, rfl⟩
        · rw [if_neg hc] at hstep
          by_cases hh : containsSub "text/html".data (pyLowerStr ctype) = true
          · rw [if_neg (by simp [hh])] at hstep
            cases body with
            | unparseable m =>
              cases hstep
              exact ⟨.processingError m, rfl, hv, rfl, rfl, rfl⟩
            | parsed soup =>
              dsimp only at hstep
              split at hstep
              · rename_i m hex
                cases hstep
                exact ⟨.processingError m, rfl, hv, rfl, rfl, rfl⟩
              · rename_i pe hex
                split at hstep
                · rename_i msg hl
                  cases hstep
                  refine ⟨.processingError msg, rfl, hv, ?_, ?_, rfl⟩
                  · exact harvestLinksE_visited _ _ _
                  · exact dinsert_dinsert_same _ _ _ _
                · rename_i hl
                  split at hstep <;>
                  · cases hstep
                    refine ⟨.success pe.1 (titleOf soup) pe.2,
                      rfl, hv, ?_, rfl, rfl⟩
                    exact harvestLinksE_visited _ _ _
          · rw [if_pos (by simpa using hh)] at hstep
            cases hstep
            exact ⟨.skippedNonHtml (pyLowerStr ctype), rfl, hv, rfl, rfl, rfl⟩

/-- C3: results are write-once.  Under the loop invariant that every stored
URL is already in `visited_urls`, a step of the crawl loop never changes an
existing entry of `crawl_data` (two raw spellings of one normalized URL are
covered because the stored key is always `dequeueNormalize` of the dequeued
text and a second arrival is skipped), and the invariant is preserved. -/
theorem c3_write_once (fetchO : List Char → FetchResult) (s s' : CrawlState)
    (hdom : ∀ v r, dlookup v s.crawl_data = some r → v ∈ s.visited)
    (hstep : crawlStep fetchO s = some s')
    (u : List Char) (r : PageResult) (hu : dlookup u s.crawl_data = some r) :
    dlookup u s'.crawl_data = some r ∧
    (∀ v r2, dlookup v s'.crawl_data = some r2 → v ∈ s'.visited) := by
  rcases crawlStep_cases fetchO s s' hstep with
    ⟨u0, rest, hq, hv, rfl⟩ | ⟨u0, rest, res, hq, hv, hvis, hcd, hpc⟩
  · exact ⟨hu, fun v r2 h => hdom v r2 h⟩
  · have hne : u ≠ dequeueNormalize u0 := fun h => hv (h ▸ hdom u r hu)
    refine ⟨?_, ?_⟩
    · rw [hcd, dlookup_dinsert_ne _ _ _ _ hne]
      exact hu
    · intro v r2 h
      rw [hvis]
      by_cases hvk : v = dequeueNormalize u0
      · exact hvk ▸ List.mem_cons_self _ _
      · rw [hcd, dlookup_dinsert_ne _ _ _ _ hvk] at h
        exact List.mem_cons_of_mem _ (hdom v r2 h)

theorem dom_single (k : List Char) (v : PageResult) (vis : List (List Char))
    (hk : k ∈ vis) :
    ∀ u r, dlookup u [(k, v)] = some r → u ∈ vis := by
  intro u r h
  simp only [dlookup] at h
  split at h
  · rename_i heq
    exact heq ▸ hk
  · cases h

/-- Witness for C3: the already-recorded entry for `/a` survives the step
that records `/b`. -/
theorem c3_write_once_witness :
    dlookup "https://www.workstream.us/a".data sC3'.crawl_data =
      some (.fetchError "Request timed out".data) :=
  (c3_write_once (fun _ => .timeout) sC3 sC3'
    (dom_single _ _ _ (by decide))
    (by decide) _ _ (by decide)).1

/-- C10: the invariant `pages_crawled = |crawl_data|` (together with the
domain invariant it needs) is preserved by every iteration of the crawl
loop: every branch that records a result writes exactly one new key and
increments the counter by exactly one, and the skip branch touches
neither. -/
theorem c10_counter_matches_store (fetchO : List Char → FetchResult)
    (s s' : CrawlState)
    (hlen : s.pages_crawled = s.crawl_data.length)
    (hdom : ∀ v r, dlookup v s.crawl_data = some r → v ∈ s.visited)
    (hstep : crawlStep fetchO s = some s') :
    s'.pages_crawled = s'.crawl_data.length ∧
    (∀ v r, dlookup v s'.crawl_data = some r → v ∈ s'.visited) := by
  rcases crawlStep_cases fetchO s s' hstep with
    ⟨u0, rest, hq, hv, rfl⟩ | ⟨u0, rest, res, hq, hv, hvis, hcd, hpc⟩
  · exact ⟨hlen, fun v r h => hdom v r h⟩
  · have hnone : dlookup (dequeueNormalize u0) s.crawl_data = none := by
      cases h : dlookup (dequeueNormalize u0) s.crawl_data with
      | none => rfl
      | some r => exact absurd (hdom _ _ h) hv
    refine ⟨?_, ?_⟩
    · rw [hpc, hcd, length_dinsert_fresh _ _ _ hnone, hlen]
    · intro v r h
      rw [hvis]
      by_cases hvk : v = dequeueNormalize u0
      · exact hvk ▸ List.mem_cons_self _ _
      · rw [hcd, dlookup_dinsert_ne _ _ _ _ hvk] at h
        exact List.mem_cons_of_mem _ (hdom v r h)

/-- Witness for C10: after the step from `sC10` the counter again equals the
store size. -/
theorem c10_counter_matches_store_witness :
    sC10'.pages_crawled = sC10'.crawl_data.length :=
  (c10_counter_matches_store (fun _ => .timeout) sC10 sC10'
    (by decide)
    (dom_single _ _ _ (by decide))
    (by decide)).1

/-- C2: a checkpoint snapshot is persisted for every Nth successfully
processed page.  Whatever the earlier contents of `crawl_data` (errors and
non-HTML skips included — they also advanced the counter), when a page is
processed to completion — fetched below 400, HTML, parsed, its text
extracted without a raised exception and its links harvested without a
`urljoin` error — and the incremented count is a multiple of
`SAVE_EVERY_N_PAGES`, the current result map is written out. -/
theorem c2_checkpoint_every_nth (fetchO : List Char → FetchResult)
    (s : CrawlState) (u0 : List Char) (rest : List (List Char)) (code : Nat)
    (ctype : List Char) (soup : Forest) (pe : String × String)
    (hq : s.queue = u0 :: rest)
    (hv : dequeueNormalize u0 ∉ s.visited)
    (hf : fetchO (dequeueNormalize u0) = .response code ctype (.parsed soup))
    (hcode : code < 400)
    (hhtml : containsSub "text/html".data (pyLowerStr ctype) = true)
    (hex : extract soup = .ok pe)
    (hharv : (harvestLinksE (dequeueNormalize u0) soup
        ⟨rest, dequeueNormalize u0 :: s.visited⟩).2 = none)
    (hmod : (s.pages_crawled + 1) % SAVE_EVERY_N_PAGES = 0)
    (hlsc : s.last_save_count ≤ s.pages_crawled) :
    ∃ s', crawlStep fetchO s = some s' ∧
      s'.saves = s.saves ++ [s'.crawl_data] ∧
      s'.pages_crawled = s.pages_crawled + 1 ∧
      s'.crawl_data = dinsert (dequeueNormalize u0)
        (.success pe.1 (titleOf soup) pe.2) s.crawl_data := by
  unfold crawlStep
  rw [hq]
  dsimp only
  rw [if_neg hv, hf]
  dsimp only
  rw [if_neg (fun hcc => absurd hcc.1 (Nat.not_le.mpr hcode)),
    if_neg (by simp [hhtml]), hex]
  dsimp only
  rw [hharv]
  dsimp only
  rw [if_pos ⟨hmod, Nat.lt_succ_of_le hlsc⟩]
  exact ⟨_, rfl, rfl, rfl, rfl⟩

/-- Witness for C2: at page 200 the snapshot is appended. -/
theorem c2_checkpoint_every_nth_witness :
    ∃ s', crawlStep (fun _ => .response 200 "text/html".data (.parsed .nil)) sC2 = some s' ∧
      s'.saves = sC2.saves ++ [s'.crawl_data] ∧
      s'.pages_crawled = sC2.pages_crawled + 1 ∧
      s'.crawl_data = dinsert (dequeueNormalize "https://www.workstream.us/two-hundred".data)
        (.success "" (titleOf .nil) "Fallback (Full Document - No Body)")
        sC2.crawl_data :=
  c2_checkpoint_every_nth (fun _ => .response 200 "text/html".data (.parsed .nil))
    sC2 "https://www.workstream.us/two-hundred".data [] 200 "text/html".data .nil
    ("", "Fallback (Full Document - No Body)")
    rfl (by decide) rfl (by decide) (by decide) rfl rfl (by decide) (by decide)

/-- C9 counterexample: the claim says every non-2xx HTTP status is recorded
as an `error`, but `response.raise_for_status()` raises only on 4xx/5xx.  A
final status of 304 (non-2xx) with an HTML content type is processed as a
normal page and recorded with status `success`. -/
theorem c9_counterexample :
    ((crawlStep (fun _ => .response 304 "text/html".data (.parsed .nil))
        ⟨["https://www.workstream.us/x".data], [], [], 0, 0, []⟩).bind
      (fun s2 => dlookup "https://www.workstream.us/x".data s2.crawl_data)).map
        statusString = some "success".data := by
  decide

/-- C9 (amended): every per-URL failure is recovered locally.  For every
dequeued URL: a fetch timeout or transport failure, and a 4xx/5xx HTTP
status (the statuses `raise_for_status` raises on — not every non-2xx), is
recorded with status `error`; a parse failure after a successful fetch, and
an extraction failure (the cascade raising on an invalid selector), is
recorded with status `processing_error`; and in every case the step yields a
successor state with the rest of the queue, so the loop continues instead of
terminating. -/
theorem c9_per_url_failure_recovery (fetchO : List Char → FetchResult)
    (s : CrawlState) (u0 : List Char) (rest : List (List Char))
    (hq : s.queue = u0 :: rest)
    (hv : dequeueNormalize u0 ∉ s.visited) :
    (fetchO (dequeueNormalize u0) = .timeout →
      ∃ s', crawlStep fetchO s = some s' ∧ s'.queue = rest ∧
        (dlookup (dequeueNormalize u0) s'.crawl_data).map statusString =
          some "error".data) ∧
    (∀ m, fetchO (dequeueNormalize u0) = .transportError m →
      ∃ s', crawlStep fetchO s = some s' ∧ s'.queue = rest ∧
        (dlookup (dequeueNormalize u0) s'.crawl_data).map statusString =
          some "error".data) ∧
    (∀ code ctype body, fetchO (dequeueNormalize u0) = .response code ctype body →
      400 ≤ code → code < 600 →
      ∃ s', crawlStep fetchO s = some s' ∧ s'.queue = rest ∧
        (dlookup (dequeueNormalize u0) s'.crawl_data).map statusString =
          some "error".data) ∧
    (∀ code ctype m, fetchO (dequeueNormalize u0) = .response code ctype (.unparseable m) →
      code < 400 → containsSub "text/html".data (pyLowerStr ctype) = true →
      ∃ s', crawlStep fetchO s = some s' ∧ s'.queue = rest ∧
        (dlookup (dequeueNormalize u0) s'.crawl_data).map statusString =
          some "processing_error".data) ∧
    (∀ code ctype soup m,
      fetchO (dequeueNormalize u0) = .response code ctype (.parsed soup) →
      code < 400 → containsSub "text/html".data (pyLowerStr ctype) = true →
      extract soup = .error m →
      ∃ s', crawlStep fetchO s = some s' ∧ s'.queue = rest ∧
        (dlookup (dequeueNormalize u0) s'.crawl_data).map statusString =
          some "processing_error".data) := by
  refine ⟨?_, ?_, ?_, ?_, ?_⟩
  · intro hf
    unfold crawlStep
    rw [hq]
    dsimp only
    rw [if_neg hv, hf]
    exact ⟨_, rfl, rfl, by rw [dlookup_dinsert_self]; rfl⟩
  · intro m hf
    unfold crawlStep
    rw [hq]
    dsimp only
    rw [if_neg hv, hf]
    exact ⟨_, rfl, rfl, by rw [dlookup_dinsert_self]; rfl⟩
  · intro code ctype body hf hcode hcode6
    unfold crawlStep
    rw [hq]
    dsimp only
    rw [if_neg hv, hf]
    dsimp only
    rw [if_pos ⟨hcode, hcode6⟩]
    exact ⟨_, rfl, rfl, by rw [dlookup_dinsert_self]; rfl⟩
  · intro code ctype m hf hcode hhtml
    unfold crawlStep
    rw [hq]
    dsimp only
    rw [if_neg hv, hf]
    dsimp only
    rw [if_neg (fun hcc => absurd hcc.1 (Nat.not_le.mpr hcode)),
      if_neg (by simp [hhtml])]
    exact ⟨_, rfl, rfl, by rw [dlookup_dinsert_self]; rfl⟩
  · intro code ctype soup m hf hcode hhtml hex
    unfold crawlStep
    rw [hq]
    dsimp only
    rw [if_neg hv, hf]
    dsimp only
    rw [if_neg (fun hcc => absurd hcc.1 (Nat.not_le.mpr hcode)),
      if_neg (by simp [hhtml]), hex]
    exact ⟨_, rfl, rfl, by rw [dlookup_dinsert_self]; rfl⟩

/-- Witness for C9 at a concrete state: a timeout is recorded as `error` and
the loop moves on with an empty queue. -/
theorem c9_per_url_failure_recovery_witness :
    ∃ s', crawlStep (fun _ => .timeout)
        ⟨["https://www.workstream.us/y".data], [], [], 0, 0, []⟩ = some s' ∧
      s'.queue = [] ∧
      (dlookup (dequeueNormalize "https://www.workstream.us/y".data)
        s'.crawl_data).map statusString = some "error".data :=
  (c9_per_url_failure_recovery (fun _ => .timeout)
    ⟨["https://www.workstream.us/y".data], [], [], 0, 0, []⟩
    "https://www.workstream.us/y".data [] rfl (by decide)).1 rfl

theorem splitAtFirst_none_iff {sep : Char} : ∀ {l : List Char},
    splitAtFirst sep l = none ↔ sep ∉ l := by
  intro l
  induction l with
  | nil => simp [splitAtFirst]
  | cons c t ih =>
    simp only [splitAtFirst, List.mem_cons]
    by_cases h : c = sep
    · simp [h]
    · rw [if_neg h]
      cases hs : splitAtFirst sep t with
      | none =>
        have hnm := ih.mp hs
        refine iff_of_true rfl ?_
        rintro (hh | hm)
        · exact h hh.symm
        · exact hnm hm
      | some p =>
        have hm : sep ∈ t := by
          by_contra hmem
          rw [ih.mpr hmem] at hs
          cases hs
        cases p
        refine iff_of_false (by simp) (by simp [hm])

theorem splitAtFirst_some_eq {sep : Char} : ∀ {l a b : List Char},
    splitAtFirst sep l = some (a, b) → l = a ++ sep :: b ∧ sep ∉ a := by
  intro l
  induction l with
  | nil => intro a b h; cases h
  | cons c t ih =>
    intro a b h
    simp only [splitAtFirst] at h
    by_cases hc : c = sep
    · rw [if_pos hc] at h
      cases h
      subst hc
      exact ⟨rfl, by simp⟩
    · rw [if_neg hc] at h
      cases hs : splitAtFirst sep t with
      | none => rw [hs] at h; cases h
      | some p =>
        cases p with
        | mk a2 b2 =>
          rw [hs] at h
          cases h
          obtain ⟨he, hns⟩ := ih hs
          refine ⟨by rw [List.cons_append, ← he], ?_⟩
          simp only [List.mem_cons, not_or]
          exact ⟨fun hh => hc hh.symm, hns⟩

theorem splitAtFirstD_fst_not_mem (sep : Char) (l : List Char) :
    sep ∉ (splitAtFirstD sep l).1 := by
  unfold splitAtFirstD
  cases hs : splitAtFirst sep l with
  | none => exact splitAtFirst_none_iff.mp hs
  | some p =>
    cases p
    exact (splitAtFirst_some_eq hs).2

theorem splitAtFirstD_fst_subset (sep : Char) (l : List Char) :
    ∀ c ∈ (splitAtFirstD sep l).1, c ∈ l := by
  unfold splitAtFirstD
  cases hs : splitAtFirst sep l with
  | none => exact fun c hc => hc
  | some p =>
    cases p
    intro c hc
    rw [(splitAtFirst_some_eq hs).1]
    exact List.mem_append_left _ hc

theorem splitAtFirstD_snd_subset (sep : Char) (l : List Char) :
    ∀ c ∈ (splitAtFirstD sep l).2, c ∈ l := by
  unfold splitAtFirstD
  cases hs : splitAtFirst sep l with
  | none => intro c hc; cases hc
  | some p =>
    cases p
    intro c hc
    rw [(splitAtFirst_some_eq hs).1]
    exact List.mem_append_right _ (List.mem_cons_of_mem _ hc)

theorem toNat_ofNat_valid {m : Nat} (h : Char.isValidCharNat m) :
    (Char.ofNat m).toNat = m := by
  rw [Char.ofNat, dif_pos h]
  rfl

/-- Characters below `'a'` (in particular `#`, `?`, `:`, `/`) are fixed
points that nothing is lowercased to. -/
theorem pyLower_eq_low {c x : Char} (hx : x.toNat < 97) (h : pyLower c = x) :
    c = x := by
  unfold pyLower at h
  split at h
  · rename_i hc
    exfalso
    have hv : Char.isValidCharNat (c.toNat + 32) := Or.inl (by omega)
    have h2 := congrArg Char.toNat h
    rw [toNat_ofNat_valid hv] at h2
    omega
  · exact h

theorem pyLower_hash {c : Char} (h : pyLower c = '#') : c = '#' :=
  pyLower_eq_low (by decide) h

theorem pyLower_quest {c : Char} (h : pyLower c = '?') : c = '?' :=
  pyLower_eq_low (by decide) h

theorem mem_pyLowerStr_hash {l : List Char} (h : '#' ∈ pyLowerStr l) : '#' ∈ l := by
  obtain ⟨c, hc, hcl⟩ := List.mem_map.mp h
  exact (pyLower_hash hcl) ▸ hc

theorem isPrefixOf_slash_dropWhile (l : List Char) :
    (("/".data).isPrefixOf (l.dropWhile (fun c => c = '/'))) = false := by
  induction l with
  | nil => rfl
  | cons c t ih =>
    rw [List.dropWhile_cons]
    by_cases h : c = '/'
    · rw [if_pos (by simp [h])]
      exact ih
    · rw [if_neg (by simp [h])]
      have hne : ('/' : Char) ≠ c := fun hh => h hh.symm
      simp [List.isPrefixOf, hne]

/-- `rstrip('/')` leaves no trailing slash behind. -/
theorem rstripSlash_no_trailing (s : List Char) :
    pyEndsWith (rstripSlash s) "/".data = false := by
  unfold pyEndsWith rstripSlash List.isSuffixOf
  rw [List.reverse_reverse]
  exact isPrefixOf_slash_dropWhile _

theorem mem_rstripSlash {c : Char} {s : List Char} (h : c ∈ rstripSlash s) :
    c ∈ s := by
  unfold rstripSlash at h
  rw [List.mem_reverse] at h
  exact List.mem_reverse.mp ((List.dropWhile_sublist _).subset h)

/-- The reassembled URL contains no `#` when its components do not and the
fragment is empty. -/
theorem unsplit_no_hash (p : PUrl) (h1 : '#' ∉ p.scheme) (h2 : '#' ∉ p.netloc)
    (h3 : '#' ∉ p.path) (h4 : '#' ∉ p.query) (h5 : p.fragment = []) :
    '#' ∉ urlunsplitModel p := by
  intro hc
  have sep1 : ('#' : Char) ≠ ':' := by decide
  have sep2 : ('#' : Char) ≠ '/' := by decide
  have sep3 : ('#' : Char) ≠ '?' := by decide
  unfold urlunsplitModel at hc
  rw [h5, if_neg (by simp)] at hc
  split at hc <;> split at hc <;> split at hc <;> (try split at hc) <;>
    (try simp only [List.mem_append, List.mem_cons] at hc) <;> tauto

theorem schemeSplitD_all (v : List Char) :
    (schemeSplitD v).1 = [] ∨ (schemeSplitD v).1.all schemeChar = true := by
  unfold schemeSplitD
  cases h : schemeSplit v with
  | none => exact Or.inl rfl
  | some p =>
    cases p with
    | mk pre post =>
      dsimp only
      right
      unfold schemeSplit at h
      cases hs : splitAtFirst ':' v with
      | none => rw [hs] at h; cases h
      | some q =>
        cases q with
        | mk a b =>
          rw [hs] at h
          dsimp only at h
          split at h
          · rename_i hcond
            cases h
            exact hcond.2.2
          · cases h

theorem netlocSplit_fst_no_delim (r : List Char) :
    ∀ c ∈ (netlocSplit r).1, netlocDelim c = false := by
  unfold netlocSplit
  split
  · intro c hcm
    simpa using List.mem_takeWhile_imp hcm
  · intro c hcm
    cases hcm

/-- No component that `urlunsplit` reassembles from a parse contains `#`:
the scheme passed the scheme-character check, the netloc stops at any
delimiter, and path and query live before the first `#`. -/
theorem urlparse_no_hash (v : List Char) :
    '#' ∉ (urlparseModel v).scheme ∧ '#' ∉ (urlparseModel v).netloc ∧
    '#' ∉ (urlparseModel v).path ∧ '#' ∉ (urlparseModel v).query := by
  refine ⟨?_, ?_, ?_, ?_⟩
  · intro hc
    have hc2 := mem_pyLowerStr_hash hc
    rcases schemeSplitD_all v with he | ha
    · rw [he] at hc2
      cases hc2
    · have := List.all_eq_true.mp ha _ hc2
      exact absurd this (by decide)
  · intro hc
    have := netlocSplit_fst_no_delim _ _ hc
    simp [netlocDelim] at this
  · intro hc
    exact splitAtFirstD_fst_not_mem '#' _
      (splitAtFirstD_fst_subset '?' _ _ hc)
  · intro hc
    exact splitAtFirstD_fst_not_mem '#' _
      (splitAtFirstD_snd_subset '?' _ _ hc)

theorem normalizeHarvestedLink_no_hash (cur href : List Char) :
    '#' ∉ normalizeHarvestedLink cur href := by
  intro hc
  have hp := urlparse_no_hash (urljoinModel cur (stripWs href))
  have hdefr : '#' ∉ urlunsplitModel
      { urlparseModel (urljoinModel cur (stripWs href)) with fragment := [] } :=
    unsplit_no_hash _ hp.1 hp.2.1 hp.2.2.1 hp.2.2.2 rfl
  unfold normalizeHarvestedLink at hc
  dsimp only at hc
  split at hc
  · exact hdefr (mem_rstripSlash hc)
  · exact hdefr hc

theorem normalizeHarvestedLink_no_trailing (cur href : List Char)
    (h1 : (urlparseModel (urljoinModel cur (stripWs href))).path ≠ [])
    (h2 : (urlparseModel (urljoinModel cur (stripWs href))).path ≠ "/".data) :
    pyEndsWith (normalizeHarvestedLink cur href) "/".data = false := by
  unfold normalizeHarvestedLink
  dsimp only
  split
  · exact rstripSlash_no_trailing _
  · rename_i hneg
    have hC : ¬ pyEndsWith (urlunsplitModel
        { urlparseModel (urljoinModel cur (stripWs href)) with fragment := [] })
        "/".data = true := fun hC => hneg ⟨h1, h2, hC⟩
    simpa using hC

theorem dequeueNormalize_no_trailing (u : List Char)
    (h1 : (urlparseModel u).path ≠ [])
    (h2 : (urlparseModel u).path ≠ "/".data) :
    pyEndsWith (dequeueNormalize u) "/".data = false := by
  unfold dequeueNormalize
  dsimp only
  split
  · exact rstripSlash_no_trailing _
  · rename_i hneg
    have hC : ¬ pyEndsWith u "/".data = true := fun hC => hneg ⟨h1, h2, hC⟩
    simpa using hC

/-- C8 counterexample: the claim says a single trailing `'/'` is stripped,
but the code calls `rstrip('/')`, which strips them all.  For the href
`/a//` resolved against the seed, the code produces `…/a` while the claimed
single strip would produce `…/a/`. -/
theorem c8_counterexample :
    normalizeHarvestedLink "https://www.workstream.us/".data "/a//".data =
      "https://www.workstream.us/a".data ∧
    specNormalizeSingleStrip (urljoinModel "https://www.workstream.us/".data
      (stripWs "/a//".data)) = "https://www.workstream.us/a/".data ∧
    normalizeHarvestedLink "https://www.workstream.us/".data "/a//".data ≠
      specNormalizeSingleStrip (urljoinModel "https://www.workstream.us/".data
        (stripWs "/a//".data)) := by
  decide

/-- C8 (amended): normalization of a harvested href resolved against the
current page URL drops any fragment, and — when the parsed path is nonempty
and not exactly `"/"` and the defragmented URL ends in `'/'` — strips ALL
trailing `'/'` characters (`rstrip`), not a single one; the same
trailing-slash rule is applied at dequeue.  Consequently the normalized form
contains no `'#'` and, whenever the path is neither empty nor exactly
`"/"`, has no trailing slash. -/
theorem c8_normalized_form (cur href u : List Char) :
    ('#' ∉ normalizeHarvestedLink cur href) ∧
    ((urlparseModel (urljoinModel cur (stripWs href))).path ≠ [] →
     (urlparseModel (urljoinModel cur (stripWs href))).path ≠ "/".data →
      pyEndsWith (normalizeHarvestedLink cur href) "/".data = false) ∧
    ((urlparseModel u).path ≠ [] → (urlparseModel u).path ≠ "/".data →
      pyEndsWith (dequeueNormalize u) "/".data = false) ∧
    ((urlparseModel (urljoinModel cur (stripWs href))).path ≠ [] →
     (urlparseModel (urljoinModel cur (stripWs href))).path ≠ "/".data →
     pyEndsWith (urlunsplitModel
       { urlparseModel (urljoinModel cur (stripWs href)) with fragment := [] })
       "/".data = true →
      normalizeHarvestedLink cur href = rstripSlash (urlunsplitModel
        { urlparseModel (urljoinModel cur (stripWs href)) with fragment := [] })) := by
  refine ⟨normalizeHarvestedLink_no_hash cur href,
    fun h1 h2 => normalizeHarvestedLink_no_trailing cur href h1 h2,
    fun h1 h2 => dequeueNormalize_no_trailing u h1 h2,
    fun h1 h2 h3 => ?_⟩
  unfold normalizeHarvestedLink
  dsimp only
  rw [if_pos ⟨h1, h2, h3⟩]

/-- Witness for C8 at the seed URL, the href `/a//` and a dequeued URL with
a trailing slash. -/
theorem c8_normalized_form_witness :
    ('#' ∉ normalizeHarvestedLink "https://www.workstream.us/".data "/a//".data) ∧
    pyEndsWith (normalizeHarvestedLink "https://www.workstream.us/".data "/a//".data)
      "/".data = false ∧
    pyEndsWith (dequeueNormalize "https://www.workstream.us/b/".data)
      "/".data = false ∧
    normalizeHarvestedLink "https://www.workstream.us/".data "/a//".data =
      rstripSlash (urlunsplitModel
        { urlparseModel (urljoinModel "https://www.workstream.us/".data
            (stripWs "/a//".data)) with fragment := [] }) :=
  ⟨(c8_normalized_form "https://www.workstream.us/".data "/a//".data
      "https://www.workstream.us/b/".data).1,
   (c8_normalized_form "https://www.workstream.us/".data "/a//".data
      "https://www.workstream.us/b/".data).2.1 (by decide) (by decide),
   (c8_normalized_form "https://www.workstream.us/".data "/a//".data
      "https://www.workstream.us/b/".data).2.2.1 (by decide) (by decide),
   (c8_normalized_form "https://www.workstream.us/".data "/a//".data
      "https://www.workstream.us/b/".data).2.2.2 (by decide) (by decide) (by decide)⟩

theorem takeUntil_cons_ne {sep c : Char} (l : List Char) (hc : c ≠ sep) :
    takeUntil sep (c :: l) = c :: takeUntil sep l := by
  unfold takeUntil
  rw [List.takeWhile_cons_of_pos (by simp [hc])]

theorem takeUntil_cons_self {sep : Char} (l : List Char) :
    takeUntil sep (sep :: l) = [] := by
  unfold takeUntil
  rw [List.takeWhile_cons_of_neg (by simp)]

theorem takeUntil_eq_self {sep : Char} {l : List Char} (h : sep ∉ l) :
    takeUntil sep l = l := by
  induction l with
  | nil => rfl
  | cons c t ih =>
    rw [takeUntil_cons_ne t (fun hh => h (by rw [← hh]; exact List.mem_cons_self c t)),
      ih (fun hm => h (List.mem_cons_of_mem c hm))]

theorem takeUntil_append {sep : Char} {a : List Char} (b : List Char)
    (ha : sep ∉ a) : takeUntil sep (a ++ b) = a ++ takeUntil sep b := by
  induction a with
  | nil => rfl
  | cons c t ih =>
    rw [List.cons_append,
      takeUntil_cons_ne _ (fun hh => ha (by rw [← hh]; exact List.mem_cons_self c t)),
      ih (fun hm => ha (List.mem_cons_of_mem c hm)), List.cons_append]

theorem takeUntil_eq_splitAtFirstD_fst (sep : Char) (l : List Char) :
    takeUntil sep l = (splitAtFirstD sep l).1 := by
  unfold splitAtFirstD
  cases hq : splitAtFirst sep l with
  | none => exact takeUntil_eq_self (splitAtFirst_none_iff.mp hq)
  | some p =>
    cases p with
    | mk a b =>
      obtain ⟨he, hna⟩ := splitAtFirst_some_eq hq
      rw [he, takeUntil_append _ hna, takeUntil_cons_self, List.append_nil]

theorem splitAtFirst_map_pyLower (l : List Char) :
    splitAtFirst '?' (pyLowerStr l) =
      (splitAtFirst '?' l).map (fun pr => (pyLowerStr pr.1, pyLowerStr pr.2)) := by
  induction l with
  | nil => rfl
  | cons c t ih =>
    show splitAtFirst '?' (pyLower c :: pyLowerStr t) = _
    by_cases hc : c = '?'
    · subst hc
      rw [show pyLower '?' = '?' from by decide]
      rfl
    · unfold splitAtFirst
      rw [if_neg (fun hh => hc (pyLower_quest hh)), if_neg hc, ih]
      cases hq : splitAtFirst '?' t with
      | none => rfl
      | some p => cases p; rfl

theorem splitAtFirstD_fst_map_pyLower (l : List Char) :
    (splitAtFirstD '?' (pyLowerStr l)).1 = pyLowerStr (splitAtFirstD '?' l).1 := by
  unfold splitAtFirstD
  rw [splitAtFirst_map_pyLower]
  cases hq : splitAtFirst '?' l with
  | none => rfl
  | some p => cases p; rfl

theorem schemeSplit_some {u pre post : List Char}
    (h : schemeSplit u = some (pre, post)) :
    u = pre ++ ':' :: post ∧ pre.all schemeChar = true ∧ pre ≠ [] := by
  unfold schemeSplit at h
  cases hs : splitAtFirst ':' u with
  | none => rw [hs] at h; cases h
  | some q =>
    cases q with
    | mk a b =>
      rw [hs] at h
      dsimp only at h
      split at h
      · rename_i hc
        cases h
        exact ⟨(splitAtFirst_some_eq hs).1, hc.2.2, hc.1⟩
      · cases h

theorem netlocSplit_shape {r : List Char} (h : (netlocSplit r).1 ≠ []) :
    ∃ t, r = '/' :: '/' :: t ∧
      netlocSplit r = (t.takeWhile (fun c => ¬ netlocDelim c),
        t.dropWhile (fun c => ¬ netlocDelim c)) := by
  unfold netlocSplit at h ⊢
  by_cases hp : (['/', '/'].isPrefixOf r) = true
  · obtain ⟨s, hs⟩ := List.isPrefixOf_iff_prefix.mp hp
    refine ⟨r.drop 2, ?_, ?_⟩
    · rw [← hs]
      simp
    · rw [if_pos hp]
  · rw [if_neg hp] at h
    exact absurd rfl h

theorem dropWhile_head_false {p : Char → Bool} :
    ∀ {l : List Char} {c : Char} {r : List Char},
      l.dropWhile p = c :: r → p c = false := by
  intro l
  induction l with
  | nil => intro c r h; cases h
  | cons a t ih =>
    intro c r h
    rw [List.dropWhile_cons] at h
    split at h
    · exact ih h
    · cases h
      rename_i ha
      exact Bool.eq_false_iff.mpr ha

theorem pyEndsWith_iff {s e : List Char} : pyEndsWith s e = true ↔ e <:+ s := by
  unfold pyEndsWith List.isSuffixOf
  rw [List.isPrefixOf_iff_prefix, List.reverse_prefix]

theorem suffix_boundary_prop (e P L : List Char) (he : '/' ∉ e)
    (hne : ¬ e <:+ P) (hL : L = [] ∨ '/' ∈ L) : e <:+ P ++ L ↔ e <:+ L := by
  constructor
  · intro h
    have hsufL : L <:+ P ++ L := List.suffix_append P L
    have := List.prefix_or_prefix_of_prefix (List.reverse_prefix.mpr h)
      (List.reverse_prefix.mpr hsufL)
    rcases this with h2 | h2
    · exact List.reverse_prefix.mp h2
    · have hLe : L <:+ e := List.reverse_prefix.mp h2
      rcases hL with rfl | hmem
      · rw [List.append_nil] at h
        exact absurd h hne
      · exact absurd (hLe.subset hmem) he
  · intro h
    exact h.trans (List.suffix_append P L)

theorem pyEndsWith_boundary (e P L : List Char) (he : '/' ∉ e)
    (hne : pyEndsWith P e = false) (hL : L = [] ∨ '/' ∈ L) :
    pyEndsWith (P ++ L) e = pyEndsWith L e := by
  have hnp : ¬ e <:+ P := fun hp => by
    rw [pyEndsWith_iff.mpr hp] at hne
    cases hne
  cases hb : pyEndsWith L e with
  | true =>
    exact pyEndsWith_iff.mpr
      ((suffix_boundary_prop e P L he hnp hL).mpr (pyEndsWith_iff.mp hb))
  | false =>
    cases hb2 : pyEndsWith (P ++ L) e with
    | false => rfl
    | true =>
      exfalso
      have hs2 := (suffix_boundary_prop e P L he hnp hL).mp (pyEndsWith_iff.mp hb2)
      rw [pyEndsWith_iff.mpr hs2] at hb
      cases hb

theorem any_congr_mem {l : List (List Char)} {f g : List Char → Bool}
    (h : ∀ x ∈ l, f x = g x) : l.any f = l.any g := by
  induction l with
  | nil => rfl
  | cons a t ih =>
    rw [List.any_cons, List.any_cons, h a (List.mem_cons_self a t),
      ih (fun x hx => h x (List.mem_cons_of_mem a hx))]

theorem not_mem_pyLowerStr_of {x : Char} (hx : x.toNat < 97) {l : List Char}
    (h : x ∉ l) : x ∉ pyLowerStr l := by
  intro hm
  obtain ⟨c, hc, hcl⟩ := List.mem_map.mp hm
  exact h ((pyLower_eq_low hx hcl) ▸ hc)

theorem bool_eq_of_iff {a b : Bool} (h : (a = true) ↔ (b = true)) : a = b := by
  cases a <;> cases b <;> simp_all

/-- Shape of the string on which `is_valid_url` checks the extension: for a
URL of the fully decomposed form, truncating the lowercased URL at the first
`'?'` and `'#'` leaves the scheme, the separators, the netloc and exactly
the path part of the remainder. -/
theorem extcheck_decomp (pre netloc rest2 : List Char)
    (hpq : '?' ∉ pre) (hph : '#' ∉ pre)
    (hnq : '?' ∉ netloc) (hnh : '#' ∉ netloc)
    (hr : '#' ∉ rest2) :
    takeUntil '#' (takeUntil '?' (pre ++ ':' :: '/' :: '/' :: (netloc ++ rest2))) =
      pre ++ ':' :: '/' :: '/' :: (netloc ++ (splitAtFirstD '?' rest2).1) := by
  have h1 : takeUntil '?' (pre ++ ':' :: '/' :: '/' :: (netloc ++ rest2)) =
      pre ++ ':' :: '/' :: '/' :: (netloc ++ (splitAtFirstD '?' rest2).1) := by
    rw [takeUntil_append _ hpq, takeUntil_cons_ne _ (by decide),
      takeUntil_cons_ne _ (by decide), takeUntil_cons_ne _ (by decide),
      takeUntil_append _ hnq, takeUntil_eq_splitAtFirstD_fst]
  rw [h1]
  apply takeUntil_eq_self
  intro hmem
  simp only [List.mem_append, List.mem_cons] at hmem
  rcases hmem with h | h | h | h | h | h
  · exact hph h
  · exact absurd h (by decide)
  · exact absurd h (by decide)
  · exact absurd h (by decide)
  · exact hnh h
  · exact hr (splitAtFirstD_fst_subset '?' rest2 _ h)

theorem pyLowerStr_sep_cons (x : List Char) :
    List.map pyLower (':' :: '/' :: '/' :: x) =
      ':' :: '/' :: '/' :: List.map pyLower x := by
  rw [List.map_cons, List.map_cons, List.map_cons,
    show pyLower ':' = ':' from by decide, show pyLower '/' = '/' from by decide]

theorem splitAtFirstD_fst_cons_ne {sep c : Char} (l : List Char) (hc : c ≠ sep) :
    (splitAtFirstD sep (c :: l)).1 = c :: (splitAtFirstD sep l).1 := by
  rw [← takeUntil_eq_splitAtFirstD_fst, ← takeUntil_eq_splitAtFirstD_fst]
  exact takeUntil_cons_ne l hc

theorem splitAtFirstD_fst_cons_self {sep : Char} (l : List Char) :
    (splitAtFirstD sep (sep :: l)).1 = [] := by
  rw [← takeUntil_eq_splitAtFirstD_fst]
  exact takeUntil_cons_self l

/-- Core of C7: for a URL whose scheme is `http`/`https`, whose netloc is
the allowed domain and which contains no `#`, the extension check of
`is_valid_url` (on the lowercased URL truncated at the first `?`) agrees
with the extension check on the lowercased parsed path alone — the fixed
netloc cannot complete a denylist suffix across the boundary. -/
theorem ext_check_eq (u : List Char)
    (hs : (urlparseModel u).scheme = "http".data ∨
          (urlparseModel u).scheme = "https".data)
    (hn : (urlparseModel u).netloc = ALLOWED_DOMAIN)
    (hh : '#' ∉ u) :
    excluded_extensions.any (fun ext =>
        pyEndsWith (takeUntil '#' (takeUntil '?' (pyLowerStr u))) ext) =
      excluded_extensions.any (fun ext =>
        pyEndsWith (pyLowerStr (urlparseModel u).path) ext) := by
  cases hsp : schemeSplit u with
  | none =>
    exfalso
    have hsch : (urlparseModel u).scheme = [] := by
      unfold urlparseModel schemeSplitD
      rw [hsp]
      rfl
    rcases hs with h | h <;> (rw [hsch] at h; exact List.noConfusion h)
  | some pr =>
  cases pr with
  | mk pre post =>
  obtain ⟨hu, hall, hpre_ne⟩ := schemeSplit_some hsp
  have hparse : urlparseModel u = ⟨pyLowerStr pre, (netlocSplit post).1,
      (splitAtFirstD '?' (splitAtFirstD '#' (netlocSplit post).2).1).1,
      (splitAtFirstD '?' (splitAtFirstD '#' (netlocSplit post).2).1).2,
      (splitAtFirstD '#' (netlocSplit post).2).2⟩ := by
    unfold urlparseModel schemeSplitD
    rw [hsp]
  have hnl1AD : (netlocSplit post).1 = ALLOWED_DOMAIN := by
    rw [hparse] at hn
    exact hn
  have hne : (netlocSplit post).1 ≠ [] := by
    rw [hnl1AD]
    decide
  obtain ⟨t, hpost, hnl⟩ := netlocSplit_shape hne
  have hnl2 : (netlocSplit post).2 = t.dropWhile (fun c => ¬ netlocDelim c) :=
    congrArg Prod.snd hnl
  have ht : t = (netlocSplit post).1 ++ (netlocSplit post).2 := by
    rw [congrArg Prod.fst hnl, hnl2, List.takeWhile_append_dropWhile]
  have hu2 : u = pre ++ ':' :: '/' :: '/' ::
      ((netlocSplit post).1 ++ (netlocSplit post).2) := by
    conv_lhs => rw [hu, hpost]
    rw [← ht]
  have hhpre : '#' ∉ pre := fun hm =>
    hh (by rw [hu2]; exact List.mem_append_left _ hm)
  have hhnl1 : '#' ∉ (netlocSplit post).1 := fun hm => hh (by
    rw [hu2]
    exact List.mem_append_right _ (List.mem_cons_of_mem _ (List.mem_cons_of_mem _
      (List.mem_cons_of_mem _ (List.mem_append_left _ hm)))))
  have hhnl2 : '#' ∉ (netlocSplit post).2 := fun hm => hh (by
    rw [hu2]
    exact List.mem_append_right _ (List.mem_cons_of_mem _ (List.mem_cons_of_mem _
      (List.mem_cons_of_mem _ (List.mem_append_right _ hm)))))
  have hfh : splitAtFirstD '#' (netlocSplit post).2 = ((netlocSplit post).2, []) := by
    unfold splitAtFirstD
    rw [splitAtFirst_none_iff.mpr hhnl2]
  have hpath : (urlparseModel u).path =
      (splitAtFirstD '?' (netlocSplit post).2).1 := by
    rw [hparse]
    dsimp only
    rw [hfh]
  have hqpre : '?' ∉ pre := fun hm =>
    absurd (List.all_eq_true.mp hall _ hm) (by decide)
  have hqnl1 : '?' ∉ (netlocSplit post).1 := fun hm =>
    absurd (netlocSplit_fst_no_delim post _ hm) (by decide)
  have hlow : pyLowerStr u = pyLowerStr pre ++ ':' :: '/' :: '/' ::
      (pyLowerStr (netlocSplit post).1 ++ pyLowerStr (netlocSplit post).2) := by
    show List.map pyLower u = _
    conv_lhs => rw [hu2]
    rw [List.map_append, pyLowerStr_sep_cons, List.map_append]
    rfl
  have hext : takeUntil '#' (takeUntil '?' (pyLowerStr u)) =
      pyLowerStr pre ++ ':' :: '/' :: '/' ::
        (pyLowerStr (netlocSplit post).1 ++
          pyLowerStr ((splitAtFirstD '?' (netlocSplit post).2).1)) := by
    rw [hlow, extcheck_decomp _ _ _
      (not_mem_pyLowerStr_of (by decide) hqpre)
      (not_mem_pyLowerStr_of (by decide) hhpre)
      (not_mem_pyLowerStr_of (by decide) hqnl1)
      (not_mem_pyLowerStr_of (by decide) hhnl1)
      (not_mem_pyLowerStr_of (by decide) hhnl2),
      splitAtFirstD_fst_map_pyLower]
  have hpath0 : (splitAtFirstD '?' (netlocSplit post).2).1 = [] ∨
      '/' ∈ (splitAtFirstD '?' (netlocSplit post).2).1 := by
    cases hr2 : (netlocSplit post).2 with
    | nil => exact Or.inl rfl
    | cons c r2 =>
      have h0 : t.dropWhile (fun c => ¬ netlocDelim c) = c :: r2 := by
        rw [← hnl2]
        exact hr2
      have hpc : netlocDelim c = true := by
        have := dropWhile_head_false h0
        simpa using this
      have hcm : c ∈ (netlocSplit post).2 := by
        rw [hr2]
        exact List.mem_cons_self c r2
      have hc3 : (c = '/' ∨ c = '?') ∨ c = '#' := by
        simpa [netlocDelim] using hpc
      rcases hc3 with (rfl | rfl) | rfl
      · refine Or.inr ?_
        rw [splitAtFirstD_fst_cons_ne r2 (by decide)]
        exact List.mem_cons_self _ _
      · refine Or.inl ?_
        rw [splitAtFirstD_fst_cons_self]
      · exact absurd hcm hhnl2
  have hpath0' : pyLowerStr ((splitAtFirstD '?' (netlocSplit post).2).1) = [] ∨
      '/' ∈ pyLowerStr ((splitAtFirstD '?' (netlocSplit post).2).1) := by
    rcases hpath0 with h0 | h0
    · exact Or.inl (by rw [h0]; rfl)
    · exact Or.inr (List.mem_map.mpr ⟨'/', h0, by decide⟩)
  rw [hpath, hext]
  rw [show pyLowerStr pre ++ ':' :: '/' :: '/' ::
      (pyLowerStr (netlocSplit post).1 ++
        pyLowerStr ((splitAtFirstD '?' (netlocSplit post).2).1)) =
    (pyLowerStr pre ++ ':' :: '/' :: '/' :: pyLowerStr (netlocSplit post).1) ++
      pyLowerStr ((splitAtFirstD '?' (netlocSplit post).2).1) from by simp]
  have hnl1low : pyLowerStr (netlocSplit post).1 = ALLOWED_DOMAIN := by
    rw [hnl1AD]
    decide
  have hpre_low : pyLowerStr pre = (urlparseModel u).scheme := by
    rw [hparse]
  apply any_congr_mem
  intro ext hext2
  dsimp only
  have hslash : '/' ∉ ext := by
    simp only [excluded_extensions] at hext2
    fin_cases hext2 <;> decide
  refine pyEndsWith_boundary _ _ _ hslash ?_ hpath0'
  rw [hpre_low, hnl1low]
  rcases hs with hcase | hcase <;> rw [hcase] <;>
    simp only [excluded_extensions] at hext2 <;>
    fin_cases hext2 <;> decide

theorem is_valid_url_eq_true_iff (u : List Char) :
    is_valid_url u = true ↔
      (((urlparseModel u).scheme = "http".data ∨
        (urlparseModel u).scheme = "https".data) ∧
      (urlparseModel u).netloc = ALLOWED_DOMAIN ∧ '#' ∉ u ∧
      ¬ excluded_extensions.any (fun ext =>
          pyEndsWith (takeUntil '#' (takeUntil '?' (pyLowerStr u))) ext) = true) := by
  unfold is_valid_url
  dsimp only
  by_cases h : ((urlparseModel u).scheme = "http".data ∨
      (urlparseModel u).scheme = "https".data) ∧
      (urlparseModel u).netloc = ALLOWED_DOMAIN ∧ ¬ '#' ∈ u
  · rw [if_neg (not_not_intro h)]
    simp only [decide_eq_true_eq]
    constructor
    · intro hx
      exact ⟨h.1, h.2.1, h.2.2, hx⟩
    · intro hx
      exact hx.2.2.2
  · rw [if_pos h]
    exact iff_of_false (by simp) (fun hx => h ⟨hx.1, hx.2.1, hx.2.2.1⟩)

/-- C7 counterexample: the claimed "iff" omits the code's `'#' not in url`
test.  A fragment URL satisfies every condition the claim lists (its parsed
path is `/a`, scheme and host are fine) yet `is_valid_url` rejects it. -/
theorem c7_counterexample :
    isInScopeClaim "https://www.workstream.us/a#b".data = true ∧
    is_valid_url "https://www.workstream.us/a#b".data = false := by
  decide

/-- C7 (amended): the scope filter returns true iff the URL's scheme is
`http` or `https`, its netloc equals the allowed host exactly, the URL
contains no `'#'` (this condition, enforced by the code, is missing from
the claim), and the lowercased path ignoring the query string does not end
in one of the fixed denylist extensions; in particular it accepts an
in-host HTML page path and rejects a subdomain host, an `ftp` scheme and a
`.pdf` path. -/
theorem c7_scope_filter (u : List Char) :
    is_valid_url u = isInScopeSpec u ∧
    is_valid_url "https://www.workstream.us/pricing".data = true ∧
    is_valid_url "https://sub.workstream.us/pricing".data = false ∧
    is_valid_url "ftp://www.workstream.us/x".data = false ∧
    is_valid_url "https://www.workstream.us/report.pdf".data = false := by
  refine ⟨?_, by decide, by decide, by decide, by decide⟩
  apply bool_eq_of_iff
  rw [is_valid_url_eq_true_iff]
  unfold isInScopeSpec
  dsimp only
  rw [decide_eq_true_eq]
  constructor
  · rintro ⟨h1, h2, h3, h4⟩
    refine ⟨h1, h2, h3, ?_⟩
    rw [← ext_check_eq u h1 h2 h3]
    exact h4
  · rintro ⟨h1, h2, h3, h4⟩
    refine ⟨h1, h2, h3, ?_⟩
    rw [ext_check_eq u h1 h2 h3]
    exact h4

end Crawler
